import Mathlib

/-!
Verification development for the battery-optimisation linear-programming core:
the two-phase simplex solver (`dual_simplex.rs`), the tableau builder
(`tableau_creation.rs`) and the plan translation (`calculation.rs`).

The `f64` arithmetic of the source is modelled with exact rationals `ℚ`.
Indexed reads and writes inside the solver are modelled totally
(out-of-range reads give `0`, out-of-range writes are dropped); the theorems
about the solver carry the in-range hypotheses under which this model agrees
with the source.  Inside the tableau builder, where an out-of-range write is
actually reachable (a Rust panic), writes are modelled with `Option`, and
`none` models the panic.
-/

namespace BatterySim

/-- Phase of the two-phase simplex solver, translated from `enum Phase` in
dual_simplex.rs. -/
inductive Phase where
  | one
  | two
deriving DecidableEq, Repr

/-- Simplex tableau with bookkeeping, translated from `struct Matrix` in
dual_simplex.rs.  Entries are exact rationals in place of `f64`. -/
structure Matrix where
  phase : Phase
  «variables» : Nat
  artificials : Nat
  data : List (List ℚ)
deriving DecidableEq, Repr

/-- Translation of `Matrix::new` (dual_simplex.rs line 40): a fresh matrix
starts in phase one. -/
def Matrix.new (data : List (List ℚ)) («variables» artificials : Nat) : Matrix :=
  { phase := Phase.one, data := data, «variables» := «variables», artificials := artificials }

/-- Translation of `Matrix::get` (dual_simplex.rs line 44).  A read out of
range is given the value `0`; theorems about the solver assume in-range
indices, where this agrees with the source. -/
def Matrix.get (m : Matrix) (row col : Nat) : ℚ :=
  (m.data.getD row []).getD col 0

/-- Translation of `Matrix::set` (dual_simplex.rs line 48).  A write out of
range is dropped; theorems about the solver assume in-range indices, where
this agrees with the source. -/
def Matrix.set (m : Matrix) (row col : Nat) (val : ℚ) : Matrix :=
  { m with data := m.data.set row ((m.data.getD row []).set col val) }

/-- Translation of `Matrix::phase_two` (dual_simplex.rs line 52). -/
def Matrix.phase_two (m : Matrix) : Matrix := { m with phase := Phase.two }

/-- The `for (col, &x) in last_row.iter().enumerate()` loop body of
`find_most_positive_in_bottom_row` (dual_simplex.rs lines 71-79), as a
recursion carrying the running column index and the best candidate found. -/
def scanGo : Option (Nat × ℚ) → Nat → List ℚ → Option (Nat × ℚ)
  | found, _, [] => found
  | found, col, x :: rest =>
    scanGo
      (if x > 0 then
        match found with
        | some (_, val) => if x > val then some (col, x) else found
        | none => some (col, x)
      else found)
      (col + 1) rest

/-- Scan of one row for the most positive entry, earliest on ties
(dual_simplex.rs lines 63-79). -/
def scanRow (l : List ℚ) : Option (Nat × ℚ) := scanGo none 0 l

/-- Translation of `Matrix::find_most_positive_in_bottom_row`
(dual_simplex.rs lines 57-81): in phase one the scanned row is
`data[len - 1]` with the final `1` column dropped, in phase two it is
`data[len - 2]` with the final `artificials + 1` columns dropped. -/
def Matrix.find_most_positive_in_bottom_row (m : Matrix) : Option (Nat × ℚ) :=
  let last_row :=
    match m.phase with
    | Phase.one => m.data.getD (m.data.length - 1) []
    | Phase.two => m.data.getD (m.data.length - 2) []
  let limit :=
    match m.phase with
    | Phase.one => 1
    | Phase.two => m.artificials + 1
  scanRow (last_row.take (last_row.length - limit))

/-- The body of the `for row in 0..num_rows - limit` loop of `find_pivot`
(dual_simplex.rs lines 93-111): a candidate row must have a strictly
positive pivot-column entry and a non-negative right-hand side, and it
replaces the current best exactly when its ratio is strictly smaller. -/
def pivotStep (m : Matrix) (col : Nat) (st : Option ℚ × Option (Nat × Nat)) (row : Nat) :
    Option ℚ × Option (Nat × Nat) :=
  let a := m.get row col
  let b := m.get row ((m.data.getD 0 []).length - 1)
  if a > 0 ∧ b ≥ 0 then
    let ratio := b / a
    match st.1 with
    | some val => if ratio < val then (some ratio, some (row, col)) else st
    | none => (some ratio, some (row, col))
  else st

/-- The `for row in 0..num_rows - limit` loop of `find_pivot`
(dual_simplex.rs lines 93-111): fold over the candidate rows carrying the
running minimum ratio and the pivot found so far. -/
def pivotSearch (m : Matrix) (col cnt : Nat) : Option ℚ × Option (Nat × Nat) :=
  (List.range cnt).foldl (pivotStep m col) (none, none)

/-- Translation of `Matrix::find_pivot` (dual_simplex.rs lines 83-114):
the candidate rows stop `2` short of the bottom in phase one and `1` short
in phase two. -/
def Matrix.find_pivot (m : Matrix) : Option (Nat × Nat) :=
  match m.find_most_positive_in_bottom_row with
  | none => none
  | some (col, _) =>
    let limit :=
      match m.phase with
      | Phase.one => 2
      | Phase.two => 1
    (pivotSearch m col (m.data.length - limit)).2

/-- The pivot-row normalization loop of `Matrix::pivot` (dual_simplex.rs
lines 127-129): divide the first `num_cols` entries of row `pr` by `pv`. -/
def normalizeRow (pr : Nat) (pv : ℚ) (num_cols : Nat) (m : Matrix) : Matrix :=
  (List.range num_cols).foldl
    (fun acc col => acc.set pr col (acc.get pr col / pv)) m

/-- The inner column loop of the elimination step of `Matrix::pivot`
(dual_simplex.rs lines 134-137): subtract `ratio` times the pivot row from
row `row`, where `ratio` is that row's pivot-column entry. -/
def eliminateRow (pr pc num_cols : Nat) (acc : Matrix) (row : Nat) : Matrix :=
  let ratio := acc.get row pc
  (List.range num_cols).foldl
    (fun a2 col => a2.set row col (a2.get row col - ratio * a2.get pr col)) acc

/-- The guarded body of the `for row in 0..num_rows` elimination loop of
`Matrix::pivot` (dual_simplex.rs lines 131-139). -/
def elimStep (pr pc num_cols : Nat) (acc : Matrix) (row : Nat) : Matrix :=
  if row ≠ pr then eliminateRow pr pc num_cols acc row else acc

/-- The `num_rows` bound of `Matrix::pivot` (dual_simplex.rs lines 120-123):
all rows in phase one, all but the last row in phase two. -/
def Matrix.activeRows (m : Matrix) : Nat :=
  match m.phase with
  | Phase.one => m.data.length
  | Phase.two => m.data.length - 1

/-- Translation of `Matrix::pivot` (dual_simplex.rs lines 116-141):
first the pivot row is divided through by the pivot value, then every row
below `num_rows` other than the pivot row gets `ratio` times the pivot row
subtracted, where `num_rows` covers all rows in phase one and all but the
last row in phase two. -/
def Matrix.pivot (m : Matrix) (p : Nat × Nat) : Matrix :=
  let pivot_row := p.1
  let pivot_col := p.2
  let pivot_val := m.get pivot_row pivot_col
  let num_rows := m.activeRows
  let num_cols := (m.data.getD 0 []).length
  let m1 := normalizeRow pivot_row pivot_val num_cols m
  (List.range num_rows).foldl (elimStep pivot_row pivot_col num_cols) m1

/-- Translation of `Matrix::check_if_we_have_a_solution`
(dual_simplex.rs lines 188-204). -/
def Matrix.check_if_we_have_a_solution (m : Matrix) : Bool :=
  match m.phase with
  | Phase.one =>
    match m.data.getLast? with
    | some last_row =>
      match last_row.getLast? with
      | some last => decide (|last| < 1 / 10000)
      | none => false
    | none => false
  | Phase.two => true

/-- Decidable equality of results, used to evaluate concrete solver runs. -/
instance {ε α : Type} [DecidableEq ε] [DecidableEq α] : DecidableEq (Except ε α) :=
  fun a b =>
    match a, b with
    | Except.ok x, Except.ok y =>
      if h : x = y then isTrue (by rw [h])
      else isFalse (fun hc => h (Except.ok.inj hc))
    | Except.error e, Except.error f =>
      if h : e = f then isTrue (by rw [h])
      else isFalse (fun hc => h (Except.error.inj hc))
    | Except.ok x, Except.error f => isFalse (fun hc => Except.noConfusion hc)
    | Except.error e, Except.ok y => isFalse (fun hc => Except.noConfusion hc)

/-- The iteration of `Matrix::solve` (dual_simplex.rs lines 143-156) with an
explicit fuel counter; the mutated matrix is threaded through and returned on
success. -/
def solveFuel : Nat → Matrix → Except String Matrix
  | 0, _ => Except.error "No solution found, iterated too many times"
  | n + 1, m =>
    match m.find_pivot with
    | some p => solveFuel n (m.pivot p)
    | none =>
      if m.check_if_we_have_a_solution then Except.ok m
      else Except.error "No feasible solution found"

/-- Translation of `Matrix::solve` (dual_simplex.rs lines 143-156): the
pivot loop runs for at most `1000000` iterations. -/
def Matrix.solve (m : Matrix) : Except String Matrix := solveFuel 1000000 m

/-- The body of the row loop of `Matrix::get_solution` (dual_simplex.rs
lines 170-177): count a zero entry, or count a nonzero entry and remember
the right-hand side of its row. -/
def solutionStep (m : Matrix) (col num_cols : Nat) (st : Nat × Nat × ℚ) (row : Nat) :
    Nat × Nat × ℚ :=
  if m.get row col = 0 then (st.1 + 1, st.2.1, st.2.2)
  else (st.1, st.2.1 + 1, m.get row (num_cols - 1))

/-- Translation of `Matrix::get_solution` (dual_simplex.rs lines 158-186):
for every decision-variable column count the zero and nonzero entries over
all rows, remembering the right-hand side of the last nonzero row seen; the
value is that right-hand side when the column has exactly one nonzero entry,
and `0` otherwise. -/
def Matrix.get_solution (m : Matrix) : List ℚ :=
  let num_rows := m.data.length
  let num_cols := (m.data.getD 0 []).length
  (List.range m.«variables»).map (fun col =>
    let st := (List.range num_rows).foldl (solutionStep m col num_cols) (0, 0, 0)
    if st.1 = num_rows - 1 ∧ st.2.1 = 1 then st.2.2 else 0)

/-- Joined consumption/price record, translated from `struct Data` in
data.rs.  The two timestamps are opaque values copied through unchanged. -/
structure Data where
  start : ℤ
  «end» : ℤ
  power : ℚ
  price : ℚ
deriving DecidableEq, Repr

/-- Customer configuration, translated from `struct Config` in data.rs. -/
structure Config where
  max_consumption : ℚ
  battery_capacity : ℚ
  battery_max_charge : ℚ
  battery_initial_charge : ℚ
  battery_efficiency : ℚ
  battery_final_charge : ℚ
deriving DecidableEq, Repr

/-- Per-interval output record, translated from `struct Plan` in data.rs. -/
structure Plan where
  start : ℤ
  «end» : ℤ
  energy_from_battery_wh : ℚ
  energy_to_battery_wh : ℚ
deriving DecidableEq, Repr

/-- Bounds-checked write `v[i] = x` of the tableau builder: `none` models the
Rust index-out-of-bounds panic. -/
def setE (r : List ℚ) (i : Nat) (v : ℚ) : Option (List ℚ) :=
  if i < r.length then some (r.set i v) else none

/-- Translation of the `negate` closure of `build_tableau`
(tableau_creation.rs lines 32-38). -/
def negate (v : List ℚ) : List ℚ :=
  v.map (fun z => if z = 0 then z else -z)

/-- The `for col in 0..i - x_vs_interval_offset + 1` loop of the
battery-capacity equations (tableau_creation.rs lines 73-75): write the
efficiency into the first `k` columns. -/
def setRangeE (r : List ℚ) (k : Nat) (c : ℚ) : Option (List ℚ) :=
  (List.range k).foldlM (fun acc j => setE acc j c) r

/-- One column of the shared fill loop of the discharge equations
(tableau_creation.rs lines 104-109) and the final-battery equation (lines
132-137): write `eff` into column `j` of the equation and, when `addInter`
holds, add `eff` to column `j` of the intermediate objective row. -/
def chargeFillStep (eff : ℚ) (addInter : Bool) (p : List ℚ × List ℚ) (j : Nat) :
    Option (List ℚ × List ℚ) :=
  match setE p.1 j eff with
  | none => none
  | some eq' =>
    if addInter then
      match p.2[j]? with
      | none => none
      | some cur =>
        match setE p.2 j (cur + eff) with
        | none => none
        | some inter' => some (eq', inter')
    else some (eq', p.2)

/-- The shared fill loop of the discharge equations (tableau_creation.rs
lines 104-109) and the final-battery equation (lines 132-137), over the
first `k` columns. -/
def chargeFill (k : Nat) (eff : ℚ) (addInter : Bool) (eq inter : List ℚ) :
    Option (List ℚ × List ℚ) :=
  (List.range k).foldlM (chargeFillStep eff addInter) (eq, inter)

/-- The max-power-charge loop of `build_tableau` (tableau_creation.rs lines
45-59).  Arguments after the data list: current interval index `i`, current
`x_vs_interval_offset`, current `line_count`.  Returns the produced rows and
the final `line_count`. -/
def maxPowerRows (c : Config) (cols cv : Nat) :
    List Data → Nat → Nat → Nat → Option (List (List ℚ) × Nat)
  | [], _, _, lc => some ([], lc)
  | d :: rest, i, xoff, lc =>
    if d.power ≥ c.max_consumption then
      maxPowerRows c cols cv rest (i + 1) (xoff + 1) lc
    else do
      let eq := List.replicate cols (0 : ℚ)
      let eq ← setE eq (i - xoff) 1
      let eq ← setE eq (cv + lc) 1
      let eq ← setE eq (cols - 1) (min c.battery_max_charge (c.max_consumption - d.power))
      let (rows, lc') ← maxPowerRows c cols cv rest (i + 1) xoff (lc + 1)
      pure (eq :: rows, lc')

/-- The battery-capacity loop of `build_tableau` (tableau_creation.rs lines
62-90).  Extra running state: accumulated `discharge`, `line_count` and
`a_offset`.  The `i + 1 - xoff` column bound is `i - x_vs_interval_offset + 1`
written without natural-number truncation. -/
def capacityRows (c : Config) (cols cv : Nat) (bmax b0 : ℚ) :
    List Data → Nat → Nat → ℚ → Nat → Nat → Option (List (List ℚ) × Nat × Nat)
  | [], _, _, _, lc, aoff => some ([], lc, aoff)
  | d :: rest, i, xoff, dis, lc, aoff =>
    if d.power ≥ c.max_consumption then
      capacityRows c cols cv bmax b0 rest (i + 1) (xoff + 1)
        (dis + (d.power - c.max_consumption)) lc aoff
    else do
      let eq := List.replicate cols (0 : ℚ)
      let eq ← setRangeE eq (i + 1 - xoff) c.battery_efficiency
      let eq ← setE eq (cv + lc) 1
      let limit := bmax + dis - b0
      let eq ← setE eq (cols - 1) limit
      let (eq, aoff') ←
        if limit < 0 then do
          let eq := negate eq
          let eq ← setE eq aoff 1
          pure (eq, aoff + 1)
        else
          pure (eq, aoff)
      let (rows, lc', aoff'') ← capacityRows c cols cv bmax b0 rest (i + 1) xoff dis (lc + 1) aoff'
      pure (eq :: rows, lc', aoff'')

/-- The discharge loop of `build_tableau` (tableau_creation.rs lines 94-126),
which also accumulates the intermediate objective row.  The
`i + 1 - (xoff + 1)` column bound is `i - x_vs_interval_offset + 1` after the
offset increment, written without natural-number truncation; this matches the
release-build wrapping semantics of the `usize` subtraction (an over-load
interval in first position makes the range empty). -/
def dischargeRows (c : Config) (cols cv : Nat) (b0 : ℚ) :
    List Data → Nat → Nat → ℚ → Nat → Nat → List ℚ →
    Option (List (List ℚ) × Nat × Nat × List ℚ × ℚ)
  | [], _, _, dis, lc, aoff, inter => some ([], lc, aoff, inter, dis)
  | d :: rest, i, xoff, dis, lc, aoff, inter =>
    if d.power ≥ c.max_consumption then do
      let xoff' := xoff + 1
      let dis' := dis + (d.power - c.max_consumption)
      let limit := dis' - b0
      let eq := List.replicate cols (0 : ℚ)
      let (eq, inter) ← chargeFill (i + 1 - xoff') c.battery_efficiency (decide (limit ≥ 0)) eq inter
      let eq ← setE eq (cv + lc) (-1)
      let eq ← setE eq (cols - 1) limit
      let (eq, aoff', inter) ←
        if limit < 0 then
          pure (negate eq, aoff, inter)
        else do
          let eq ← setE eq aoff 1
          let inter ← setE inter (cv + lc) (-1)
          let cur ← inter[cols - 1]?
          let inter ← setE inter (cols - 1) (cur + limit)
          pure (eq, aoff + 1, inter)
      let (rows, out) ← dischargeRows c cols cv b0 rest (i + 1) xoff' dis' (lc + 1) aoff' inter
      pure (eq :: rows, out)
    else
      dischargeRows c cols cv b0 rest (i + 1) xoff dis lc aoff inter

/-- The final-battery-value equation of `build_tableau` (tableau_creation.rs
lines 128-155).  Returns the equation together with the updated `a_offset`
and intermediate row. -/
def finalRowE (c : Config) (cols cv : Nat) (b0 bfinal dis : ℚ) (lc aoff : Nat)
    (inter : List ℚ) : Option (List ℚ × Nat × List ℚ) := do
  let limit := bfinal - b0 + dis
  let eq := List.replicate cols (0 : ℚ)
  let (eq, inter) ← chargeFill cv c.battery_efficiency (decide (limit ≥ 0)) eq inter
  if limit ≥ 0 then do
    let eq ← setE eq (cv + lc) (-1)
    let inter ← setE inter (cv + lc) (-1)
    let eq ← setE eq aoff 1
    let eq ← setE eq (cols - 1) limit
    let cur ← inter[cols - 1]?
    let inter ← setE inter (cols - 1) (cur + limit)
    pure (eq, aoff + 1, inter)
  else do
    let eq := negate eq
    let eq ← setE eq (cv + lc) 1
    let eq ← setE eq (cols - 1) (-limit)
    pure (eq, aoff, inter)

/-- The price-objective loop of `build_tableau` (tableau_creation.rs lines
158-167). -/
def priceRowE (c : Config) : List Data → Nat → Nat → List ℚ → Option (List ℚ)
  | [], _, _, eq => some eq
  | d :: rest, i, xoff, eq =>
    if d.power ≥ c.max_consumption then
      priceRowE c rest (i + 1) (xoff + 1) eq
    else do
      let eq ← setE eq (i - xoff) (-d.price)
      priceRowE c rest (i + 1) xoff eq

/-- The unused-artificial-column trim of `build_tableau` (tableau_creation.rs
lines 171-174): move the right-hand side to the column right after the last
used artificial column and truncate. -/
def trimRow (aoff cols : Nat) (r : List ℚ) : Option (List ℚ) := do
  let v ← r[cols - 1]?
  let r ← setE r aoff v
  pure (r.take (aoff + 1))

/-- The `for r in result.iter_mut()` trim loop of `build_tableau`
(tableau_creation.rs lines 171-174), applied to every row in order. -/
def trimAll (aoff cols : Nat) : List (List ℚ) → Option (List (List ℚ))
  | [] => some []
  | r :: rest => do
    let r' ← trimRow aoff cols r
    let rest' ← trimAll aoff cols rest
    pure (r' :: rest')

/-- Translation of `build_tableau` (tableau_creation.rs lines 14-176).
Returns the trimmed tableau, the decision-variable count and the used
artificial-variable count; `none` models a Rust index-out-of-bounds panic. -/
def build_tableau (data : List Data) (config : Config) :
    Option (List (List ℚ) × Nat × Nat) := do
  let b0 := config.battery_initial_charge * 4
  let bmax := config.battery_capacity * 4
  let bfinal := config.battery_final_charge * 4
  let count_vars := (data.filter (fun d => d.power ≤ config.max_consumption)).length
  let count_over := data.length - count_vars
  let num_s := 2 * count_vars + count_over + 1
  let num_max_a := count_over + 1
  let cols := count_vars + num_s + num_max_a + 1
  let aoff0 := count_vars + num_s
  let (rows1, lc1) ← maxPowerRows config cols count_vars data 0 0 0
  let (rows2, lc2, aoff2) ← capacityRows config cols count_vars bmax b0 data 0 0 0 lc1 aoff0
  let inter0 := List.replicate cols (0 : ℚ)
  let (rows3, lc3, aoff3, inter3, dis) ←
    dischargeRows config cols count_vars b0 data 0 0 0 lc2 aoff2 inter0
  let (finalEq, aoffF, interF) ← finalRowE config cols count_vars b0 bfinal dis lc3 aoff3 inter3
  let priceEq0 := List.replicate cols (0 : ℚ)
  let priceEq ← priceRowE config data 0 0 priceEq0
  let result := rows1 ++ rows2 ++ rows3 ++ [finalEq, priceEq, interF]
  let result ← trimAll aoffF cols result
  pure (result, count_vars, aoffF - count_vars - num_s)

/-- The plan-building loop of `calculation` (calculation.rs lines 20-40),
with the running `solution_offset`. -/
def makePlans (config : Config) : List Data → List ℚ → Nat → List Plan
  | [], _, _ => []
  | d :: rest, solution, off =>
    if d.power ≤ config.max_consumption then
      { start := d.start, «end» := d.«end»,
        energy_to_battery_wh := solution.getD off 0 / 4,
        energy_from_battery_wh := 0 } :: makePlans config rest solution (off + 1)
    else
      { start := d.start, «end» := d.«end»,
        energy_to_battery_wh := 0,
        energy_from_battery_wh := (d.power - config.max_consumption) / 4 } ::
        makePlans config rest solution off

/-- Translation of `calculation` (calculation.rs lines 9-42), with the solve
fuel made explicit; `calculation` below instantiates it with the source's
iteration bound.  `none` models a builder panic; otherwise the result is the
`Result<Vec<Plan>, String>` of the source. -/
def calculationF (fuel : Nat) (data : List Data) (config : Config) :
    Option (Except String (List Plan)) :=
  match build_tableau data config with
  | none => none
  | some (tableau, vars, arts) =>
    let matrix := Matrix.new tableau vars arts
    match solveFuel fuel matrix with
    | Except.error e => some (Except.error e)
    | Except.ok m1 =>
      match solveFuel fuel m1.phase_two with
      | Except.error e => some (Except.error e)
      | Except.ok m2 =>
        let solution := m2.get_solution
        some (Except.ok (makePlans config data solution 0))

/-- Translation of `calculation` (calculation.rs lines 9-42): build the
tableau, solve phase one, switch to phase two, solve again and translate the
solution back onto the intervals. -/
def calculation (data : List Data) (config : Config) :
    Option (Except String (List Plan)) :=
  calculationF 1000000 data config

/-! ### Derived notions used in the specifications below, together with the
claims' own (deliberately different) readings of the pivot routines, and the
concrete inputs used by the witnesses and counterexamples. -/

/-- Row `r` is a candidate pivot row for column `col`: strictly positive
pivot-column entry and non-negative right-hand side
(dual_simplex.rs line 97). -/
def pivotCand (m : Matrix) (col r : Nat) : Prop :=
  m.get r col > 0 ∧ m.get r ((m.data.getD 0 []).length - 1) ≥ 0

instance (m : Matrix) (col r : Nat) : Decidable (pivotCand m col r) := by
  unfold pivotCand
  infer_instance

/-- The minimum-ratio quotient of row `r` (dual_simplex.rs line 98). -/
def pivotRatio (m : Matrix) (col r : Nat) : ℚ :=
  m.get r ((m.data.getD 0 []).length - 1) / m.get r col

/-- The number of candidate rows scanned by `find_pivot`
(dual_simplex.rs lines 87-93): all rows except the bottom two in phase one
and except the bottom one in phase two. -/
def rowSearchCount (m : Matrix) : Nat :=
  m.data.length -
    (match m.phase with
     | Phase.one => 2
     | Phase.two => 1)

/-- The slice of the objective row scanned by
`find_most_positive_in_bottom_row` (dual_simplex.rs lines 57-68): in phase
one the bottom row without its final column, in phase two the
second-from-bottom row without its final `artificials + 1` columns. -/
def scannedRow (m : Matrix) : List ℚ :=
  let last_row :=
    match m.phase with
    | Phase.one => m.data.getD (m.data.length - 1) []
    | Phase.two => m.data.getD (m.data.length - 2) []
  let limit :=
    match m.phase with
    | Phase.one => 1
    | Phase.two => m.artificials + 1
  last_row.take (last_row.length - limit)

/-- Modelled from claim C1's words (not from the source): the same
minimum-ratio search as `find_pivot`, but excluding only the last row in
phase one and the last two rows in phase two, which is what the claim
asserts. -/
def find_pivot_claimC1 (m : Matrix) : Option (Nat × Nat) :=
  match m.find_most_positive_in_bottom_row with
  | none => none
  | some (col, _) =>
    let limit :=
      match m.phase with
      | Phase.one => 1
      | Phase.two => 2
    (pivotSearch m col (m.data.length - limit)).2

/-- Modelled from claim C2's words (not from the source): the same column
scan as `find_most_positive_in_bottom_row`, but reading the
second-from-bottom row in phase one and the bottom row in phase two, which
is what the claim asserts. -/
def find_most_claimC2 (m : Matrix) : Option (Nat × ℚ) :=
  let last_row :=
    match m.phase with
    | Phase.one => m.data.getD (m.data.length - 2) []
    | Phase.two => m.data.getD (m.data.length - 1) []
  let limit :=
    match m.phase with
    | Phase.one => 1
    | Phase.two => m.artificials + 1
  scanRow (last_row.take (last_row.length - limit))

/-- Phase-one matrix on which the code's `find_pivot` and claim C1's row
exclusions disagree: the code searches rows 0-1, the claim also row 2. -/
def Mc1 : Matrix :=
  Matrix.new [[1, 5], [1, 1], [1, 0], [1, 0]] 2 0

/-- Phase-one matrix on which the code's scanned row (the bottom row) and
claim C2's scanned row (second-from-bottom) disagree. -/
def Mc2 : Matrix :=
  Matrix.new [[0, 0], [1, 0], [5, 0]] 1 0

/-- Phase-one matrix whose scanned row is `[2, 7]`, for the C2 witness. -/
def Mw2 : Matrix :=
  Matrix.new [[2, 7, 0]] 1 0

/-- Small rectangular phase-one matrix for the C3 witness. -/
def M3w : Matrix :=
  Matrix.new [[2, 4], [1, 3]] 1 0

/-- Phase-one matrix with no pivot and a right-hand side far from zero, for
the C4 witness. -/
def Mw4 : Matrix :=
  Matrix.new [[1]] 1 0

/-- Phase-two matrix with no pivot, for the C4 witness. -/
def Mw4b : Matrix :=
  { phase := Phase.two, «variables» := 1, artificials := 0, data := [[1]] }

/-- Two intervals whose second has power exactly equal to the consumption
cap, the failing input of claim C5. -/
def dataC5 : List Data :=
  [ { start := 0, «end» := 0, power := 0, price := 1 },
    { start := 0, «end» := 0, power := 2, price := 1 } ]

/-- Configuration for the C5 failing input. -/
def configC5 : Config :=
  { max_consumption := 2, battery_capacity := 1, battery_max_charge := 1,
    battery_initial_charge := 0, battery_efficiency := 1, battery_final_charge := 0 }

/-- Column with a single nonzero, non-unit entry, for the C6 counterexample. -/
def M6 : Matrix :=
  Matrix.new [[2, 5], [0, 3]] 1 0

/-- Column with a single nonzero entry, for the C6 witness. -/
def M6w : Matrix :=
  Matrix.new [[3, 7], [0, 2]] 1 0

/-- The four intervals of the C7 scenario: powers `[0, 3, 1, 3]`, prices
`[1, 2, 2, 0.9]`. -/
def dataC7 : List Data :=
  [ { start := 0, «end» := 0, power := 0, price := 1 },
    { start := 0, «end» := 0, power := 3, price := 2 },
    { start := 0, «end» := 0, power := 1, price := 2 },
    { start := 0, «end» := 0, power := 3, price := 9/10 } ]

/-- The configuration of the C7 scenario. -/
def configC7 : Config :=
  { max_consumption := 2, battery_capacity := 1/2, battery_max_charge := 3/2,
    battery_initial_charge := 3/8, battery_efficiency := 9/10,
    battery_final_charge := 0 }

/-- The full C7 pipeline with an explicit solve fuel, as one executable
check: build the tableau, solve phase one, switch, solve phase two and test
the extracted solution against `[0.5556, 0]` with tolerance `1/10000`. -/
def pipeC7 (f : Nat) : Bool :=
  match build_tableau dataC7 configC7 with
  | some (t, v, a) =>
    match solveFuel f (Matrix.new t v a) with
    | Except.ok m1 =>
      match solveFuel f m1.phase_two with
      | Except.ok m3 =>
        decide (v = 2 ∧ a = 2 ∧
          |m3.get_solution.getD 0 0 - 1389/2500| ≤ 1/10000 ∧
          |m3.get_solution.getD 1 0 - 0| ≤ 1/10000)
      | Except.error _ => false
    | Except.error _ => false
  | none => false

/-- One under-load interval whose decision variable ends at zero, the C8
counterexample input. -/
def dataC8 : List Data :=
  [ { start := 0, «end» := 0, power := 0, price := 1 } ]

/-- Configuration with a zero charge cap, forcing the single decision
variable to zero. -/
def configC8 : Config :=
  { max_consumption := 1, battery_capacity := 1, battery_max_charge := 0,
    battery_initial_charge := 0, battery_efficiency := 1, battery_final_charge := 0 }

/-- The plan record produced for `dataC8`: both energy fields are zero. -/
def planC8 : Plan :=
  { start := 0, «end» := 0, energy_from_battery_wh := 0, energy_to_battery_wh := 0 }

/-- Phase-one matrix solved in one pivot, for the C9 witness. -/
def M9w : Matrix :=
  Matrix.new [[1, 2], [0, 0], [1, 2]] 1 0

/-- The matrix `solve` leaves behind on `M9w`. -/
def M9fin : Matrix :=
  { phase := Phase.one, «variables» := 1, artificials := 0,
    data := [[1, 2], [0, 0], [0, 0]] }

/-- One interval with an initial charge above the battery capacity: the
builder overruns its artificial-column budget and panics, the C10
counterexample input. -/
def dataC10 : List Data :=
  [ { start := 0, «end» := 0, power := 0, price := 1 } ]

/-- Configuration whose initial charge exceeds the capacity. -/
def configC10 : Config :=
  { max_consumption := 1, battery_capacity := 1/10, battery_max_charge := 1,
    battery_initial_charge := 1, battery_efficiency := 1, battery_final_charge := 1 }

/-- A well-behaved configuration for the same interval, for the C10
witness. -/
def configC10w : Config :=
  { max_consumption := 1, battery_capacity := 1, battery_max_charge := 1,
    battery_initial_charge := 0, battery_efficiency := 1, battery_final_charge := 0 }

/-- The tableau built from `dataC10` and `configC10w`. -/
def TC10w : List (List ℚ) :=
  [[1, 1, 0, 0, 0, 1], [1, 0, 1, 0, 0, 4], [1, 0, 0, -1, 1, 0],
   [-1, 0, 0, 0, 0, 0], [1, 0, 0, -1, 0, 0]]

/-! ### Basic facts about `Matrix.get` and `Matrix.set` -/

/-- Length of row `r` of the matrix (0 when the row does not exist). -/
def Matrix.rowLen (m : Matrix) (r : Nat) : Nat := (m.data.getD r []).length

/-- The row-length profile of the matrix. -/
def Matrix.shape (m : Matrix) : List Nat := m.data.map List.length

theorem map_length_getD (L : List (List ℚ)) (r : Nat) :
    (L.map List.length).getD r 0 = (L.getD r []).length := by
  induction L generalizing r with
  | nil => simp
  | cons a L ih => cases r <;> simp_all

theorem Matrix.rowLen_eq_shape_getD (m : Matrix) (r : Nat) :
    m.rowLen r = m.shape.getD r 0 := (map_length_getD m.data r).symm

theorem Matrix.get_oob (m : Matrix) (r c : Nat)
    (h : m.data.length ≤ r ∨ m.rowLen r ≤ c) : m.get r c = 0 := by
  rcases h with h | h
  · unfold Matrix.get
    rw [List.getD_eq_default _ _ h]
    simp
  · exact List.getD_eq_default _ _ h

/-- Reading after writing, on plain lists. -/
theorem getD_set_general {α : Type} (l : List α) (i : Nat) (v : α) (j : Nat) (d : α) :
    (l.set i v).getD j d = if i = j ∧ i < l.length then v else l.getD j d := by
  by_cases hij : i = j
  · subst hij
    by_cases hlen : i < l.length
    · simp [List.getD_eq_getElem?_getD, List.getElem?_set_self hlen, hlen]
    · rw [List.set_eq_of_length_le (Nat.le_of_not_lt hlen)]
      simp [hlen]
  · simp [List.getD_eq_getElem?_getD, List.getElem?_set_ne hij, hij]

theorem map_length_set (L : List (List ℚ)) (r : Nat) (row : List ℚ)
    (h : row.length = (L.getD r []).length) :
    (L.set r row).map List.length = L.map List.length := by
  induction L generalizing r with
  | nil => simp
  | cons a L ih =>
    cases r with
    | zero => simp_all
    | succ n => simpa using ih n (by simpa using h)

theorem Matrix.shape_set (m : Matrix) (r c : Nat) (v : ℚ) :
    (m.set r c v).shape = m.shape := by
  unfold Matrix.set Matrix.shape
  exact map_length_set _ _ _ (by simp)

theorem Matrix.phase_set (m : Matrix) (r c : Nat) (v : ℚ) :
    (m.set r c v).phase = m.phase := rfl

theorem Matrix.variables_set (m : Matrix) (r c : Nat) (v : ℚ) :
    (m.set r c v).«variables» = m.«variables» := rfl

theorem Matrix.artificials_set (m : Matrix) (r c : Nat) (v : ℚ) :
    (m.set r c v).artificials = m.artificials := rfl

theorem Matrix.data_length_set (m : Matrix) (r c : Nat) (v : ℚ) :
    (m.set r c v).data.length = m.data.length := by
  simp [Matrix.set]

theorem Matrix.rowLen_set (m : Matrix) (r c : Nat) (v : ℚ) (r' : Nat) :
    (m.set r c v).rowLen r' = m.rowLen r' := by
  rw [Matrix.rowLen_eq_shape_getD, Matrix.rowLen_eq_shape_getD, Matrix.shape_set]

theorem Matrix.get_set (m : Matrix) (r c : Nat) (v : ℚ) (r' c' : Nat) :
    (m.set r c v).get r' c' =
      if r = r' ∧ c = c' ∧ r < m.data.length ∧ c < m.rowLen r then v
      else m.get r' c' := by
  unfold Matrix.set Matrix.get Matrix.rowLen
  rw [getD_set_general]
  by_cases hr : (r = r' ∧ r < m.data.length)
  · obtain ⟨hr1, hr2⟩ := hr
    subst hr1
    rw [if_pos ⟨rfl, hr2⟩, getD_set_general]
    by_cases hc : (c = c' ∧ c < (m.data.getD r []).length)
    · rw [if_pos hc, if_pos ⟨rfl, hc.1, hr2, hc.2⟩]
    · rw [if_neg hc, if_neg]
      rintro ⟨-, h2, -, h4⟩
      exact hc ⟨h2, h4⟩
  · rw [if_neg hr, if_neg]
    rintro ⟨h1, -, h3, -⟩
    exact hr ⟨h1, h3⟩

/-- A fold whose step preserves an observation preserves it overall. -/
theorem foldl_preserves {α β ι : Type} (f : α → β) (g : α → ι → α) (l : List ι) (init : α)
    (h : ∀ a i, f (g a i) = f a) : f (l.foldl g init) = f init := by
  induction l generalizing init with
  | nil => rfl
  | cons x xs ih => rw [List.foldl_cons, ih, h]

/-- Everything about a matrix except the numeric entries: the row-length
profile, the phase and the two stored counts. -/
def Matrix.frame (m : Matrix) : List Nat × Phase × Nat × Nat :=
  (m.shape, m.phase, m.«variables», m.artificials)

theorem Matrix.frame_set (m : Matrix) (r c : Nat) (v : ℚ) :
    (m.set r c v).frame = m.frame := by
  simp [Matrix.frame, Matrix.shape_set, Matrix.phase_set, Matrix.variables_set,
    Matrix.artificials_set]

theorem frame_shape {m m' : Matrix} (h : m'.frame = m.frame) : m'.shape = m.shape :=
  congrArg Prod.fst h

theorem frame_phase {m m' : Matrix} (h : m'.frame = m.frame) : m'.phase = m.phase :=
  congrArg (fun x => x.2.1) h

theorem frame_variables {m m' : Matrix} (h : m'.frame = m.frame) :
    m'.«variables» = m.«variables» :=
  congrArg (fun x => x.2.2.1) h

theorem frame_artificials {m m' : Matrix} (h : m'.frame = m.frame) :
    m'.artificials = m.artificials :=
  congrArg (fun x => x.2.2.2) h

theorem frame_data_length {m m' : Matrix} (h : m'.frame = m.frame) :
    m'.data.length = m.data.length := by
  have h2 := congrArg List.length (frame_shape h)
  simpa [Matrix.shape] using h2

theorem frame_rowLen {m m' : Matrix} (h : m'.frame = m.frame) (r : Nat) :
    m'.rowLen r = m.rowLen r := by
  rw [Matrix.rowLen_eq_shape_getD, Matrix.rowLen_eq_shape_getD, frame_shape h]

theorem normalizeRow_frame (pr : Nat) (pv : ℚ) (nC : Nat) (m : Matrix) :
    (normalizeRow pr pv nC m).frame = m.frame :=
  foldl_preserves Matrix.frame _ _ _ (fun a i => Matrix.frame_set a pr i _)

theorem eliminateRow_frame (pr pc nC : Nat) (acc : Matrix) (row : Nat) :
    (eliminateRow pr pc nC acc row).frame = acc.frame :=
  foldl_preserves Matrix.frame _ _ _ (fun a i => Matrix.frame_set a row i _)

theorem elimStep_of_ne (pr pc nC : Nat) (acc : Matrix) (row : Nat) (h : row ≠ pr) :
    elimStep pr pc nC acc row = eliminateRow pr pc nC acc row := by
  unfold elimStep
  rw [if_pos h]

theorem elimStep_of_eq (pr pc nC : Nat) (acc : Matrix) (row : Nat) (h : ¬row ≠ pr) :
    elimStep pr pc nC acc row = acc := by
  unfold elimStep
  rw [if_neg h]

theorem elimStep_frame (pr pc nC : Nat) (acc : Matrix) (row : Nat) :
    (elimStep pr pc nC acc row).frame = acc.frame := by
  unfold elimStep
  by_cases h : row ≠ pr
  · rw [if_pos h, eliminateRow_frame]
  · rw [if_neg h]

theorem Matrix.pivot_frame (m : Matrix) (p : Nat × Nat) :
    (m.pivot p).frame = m.frame := by
  unfold Matrix.pivot
  exact Eq.trans (foldl_preserves Matrix.frame _ _ _ (fun a i => elimStep_frame _ _ _ a i))
    (normalizeRow_frame _ _ _ _)

/-- Pointwise description of the pivot-row normalization loop. -/
theorem normalizeRow_get (pr : Nat) (pv : ℚ) (nC : Nat) (m : Matrix) :
    ∀ r' c', (normalizeRow pr pv nC m).get r' c' =
      if r' = pr ∧ c' < nC then m.get pr c' / pv else m.get r' c' := by
  induction nC with
  | zero => simp [normalizeRow]
  | succ n ih =>
    intro r' c'
    have hstep : normalizeRow pr pv (n + 1) m =
        (normalizeRow pr pv n m).set pr n ((normalizeRow pr pv n m).get pr n / pv) := by
      unfold normalizeRow
      rw [List.range_succ, List.foldl_append, List.foldl_cons, List.foldl_nil]
    rw [hstep, Matrix.get_set]
    have hlen : (normalizeRow pr pv n m).data.length = m.data.length :=
      frame_data_length (normalizeRow_frame pr pv n m)
    have hrl : (normalizeRow pr pv n m).rowLen pr = m.rowLen pr :=
      frame_rowLen (normalizeRow_frame pr pv n m) pr
    rw [hlen, hrl]
    by_cases hr' : r' = pr
    · subst hr'
      rcases Nat.lt_trichotomy c' n with h | h | h
      · rw [if_neg (fun hc => absurd hc.2.1.symm (Nat.ne_of_lt h)), ih,
          if_pos ⟨rfl, h⟩, if_pos ⟨rfl, Nat.lt_succ_of_lt h⟩]
      · subst h
        by_cases hb : r' < m.data.length ∧ c' < m.rowLen r'
        · rw [if_pos ⟨rfl, rfl, hb.1, hb.2⟩, if_pos ⟨rfl, Nat.lt_succ_self _⟩, ih,
            if_neg (fun hc => Nat.lt_irrefl _ hc.2)]
        · rw [if_neg (fun hc => hb ⟨hc.2.2.1, hc.2.2.2⟩), ih,
            if_neg (fun hc => Nat.lt_irrefl _ hc.2), if_pos ⟨rfl, Nat.lt_succ_self _⟩]
          rcases Nat.lt_or_ge r' m.data.length with h1 | h1
          · have h2 : m.rowLen r' ≤ c' := Nat.le_of_not_lt (fun h2 => hb ⟨h1, h2⟩)
            rw [m.get_oob r' c' (Or.inr h2), zero_div]
          · rw [m.get_oob r' c' (Or.inl h1), zero_div]
      · rw [if_neg (fun hc => absurd hc.2.1 (Nat.ne_of_lt h)), ih,
          if_neg (fun hc => Nat.lt_asymm h hc.2),
          if_neg (fun hc => Nat.lt_irrefl _ (Nat.lt_of_lt_of_le h (Nat.le_of_lt_succ hc.2)))]
    · rw [if_neg (fun hc => hr' hc.1.symm), ih, if_neg (fun hc => hr' hc.1),
        if_neg (fun hc => hr' hc.1)]

/-- Pointwise description of one elimination step of `Matrix::pivot`. -/
theorem eliminateRow_get (pr pc nC : Nat) (acc : Matrix) (row : Nat) (hrow : row ≠ pr) :
    ∀ r' c', (eliminateRow pr pc nC acc row).get r' c' =
      if r' = row ∧ c' < nC ∧ row < acc.data.length ∧ c' < acc.rowLen row then
        acc.get row c' - acc.get row pc * acc.get pr c'
      else acc.get r' c' := by
  induction nC with
  | zero => simp [eliminateRow]
  | succ n ih =>
    intro r' c'
    have hstep : eliminateRow pr pc (n + 1) acc row =
        (eliminateRow pr pc n acc row).set row n
          ((eliminateRow pr pc n acc row).get row n -
            acc.get row pc * (eliminateRow pr pc n acc row).get pr n) := by
      unfold eliminateRow
      rw [List.range_succ, List.foldl_append, List.foldl_cons, List.foldl_nil]
    have hget_row : (eliminateRow pr pc n acc row).get row n = acc.get row n := by
      rw [ih row n, if_neg (fun hc => Nat.lt_irrefl _ hc.2.1)]
    have hget_pr : (eliminateRow pr pc n acc row).get pr n = acc.get pr n := by
      rw [ih pr n, if_neg (fun hc => hrow hc.1.symm)]
    have hlen : (eliminateRow pr pc n acc row).data.length = acc.data.length :=
      frame_data_length (eliminateRow_frame pr pc n acc row)
    have hrl : (eliminateRow pr pc n acc row).rowLen row = acc.rowLen row :=
      frame_rowLen (eliminateRow_frame pr pc n acc row) row
    rw [hstep, Matrix.get_set, hget_row, hget_pr, hlen, hrl]
    by_cases hr' : r' = row
    · subst hr'
      rcases Nat.lt_trichotomy c' n with h | h | h
      · rw [if_neg (fun hc => absurd hc.2.1.symm (Nat.ne_of_lt h)), ih,
          if_congr (Iff.rfl.and (Iff.rfl.and Iff.rfl)) rfl rfl]
        by_cases hb : r' < acc.data.length ∧ c' < acc.rowLen r'
        · rw [if_pos ⟨rfl, h, hb.1, hb.2⟩, if_pos ⟨rfl, Nat.lt_succ_of_lt h, hb.1, hb.2⟩]
        · rw [if_neg (fun hc => hb ⟨hc.2.2.1, hc.2.2.2⟩),
            if_neg (fun hc => hb ⟨hc.2.2.1, hc.2.2.2⟩)]
      · subst h
        by_cases hb : r' < acc.data.length ∧ c' < acc.rowLen r'
        · rw [if_pos ⟨rfl, rfl, hb.1, hb.2⟩, if_pos ⟨rfl, Nat.lt_succ_self _, hb.1, hb.2⟩]
        · rw [if_neg (fun hc => hb ⟨hc.2.2.1, hc.2.2.2⟩), ih,
            if_neg (fun hc => Nat.lt_irrefl _ hc.2.1),
            if_neg (fun hc => hb ⟨hc.2.2.1, hc.2.2.2⟩)]
      · rw [if_neg (fun hc => absurd hc.2.1 (Nat.ne_of_lt h)), ih,
          if_neg (fun hc => Nat.lt_asymm h hc.2.1),
          if_neg (fun hc => Nat.lt_irrefl _ (Nat.lt_of_lt_of_le h (Nat.le_of_lt_succ hc.2.1)))]
    · rw [if_neg (fun hc => hr' hc.1.symm), ih, if_neg (fun hc => hr' hc.1),
        if_neg (fun hc => hr' hc.1)]

/-- Pointwise description of the whole elimination loop of `Matrix::pivot`,
for a rectangular matrix. -/
theorem elimFold_get (pr pc nC : Nat) (m1 : Matrix) (hpc : pc < nC)
    (hrect : ∀ r, r < m1.data.length → m1.rowLen r = nC) :
    ∀ (k r' c' : Nat), c' < nC →
      ((List.range k).foldl (elimStep pr pc nC) m1).get r' c' =
        (if r' < k ∧ r' ≠ pr then m1.get r' c' - m1.get r' pc * m1.get pr c'
         else m1.get r' c') := by
  intro k
  induction k with
  | zero =>
    intro r' c' _
    rw [List.range_zero, List.foldl_nil, if_neg (fun hc => Nat.not_lt_zero _ hc.1)]
  | succ n ih =>
    intro r' c' hc'
    have hstep : (List.range (n + 1)).foldl (elimStep pr pc nC) m1 =
        elimStep pr pc nC ((List.range n).foldl (elimStep pr pc nC) m1) n := by
      rw [List.range_succ, List.foldl_append, List.foldl_cons, List.foldl_nil]
    have hfr : ((List.range n).foldl (elimStep pr pc nC) m1).frame = m1.frame :=
      foldl_preserves Matrix.frame _ _ _ (fun a i => elimStep_frame _ _ _ a i)
    rw [hstep]
    by_cases hn : n ≠ pr
    · rw [elimStep_of_ne pr pc nC _ n hn, eliminateRow_get pr pc nC _ n hn r' c']
      by_cases hr' : r' = n
      · subst hr'
        by_cases hb : r' < m1.data.length
        · have hrl : ((List.range r').foldl (elimStep pr pc nC) m1).rowLen r' = nC := by
            rw [frame_rowLen hfr]
            exact hrect r' hb
          rw [if_pos ⟨rfl, hc', by rw [frame_data_length hfr]; exact hb, by rw [hrl]; exact hc'⟩,
            ih r' c' hc', ih r' pc hpc, ih pr c' hc',
            if_neg (fun hc => Nat.lt_irrefl _ hc.1), if_neg (fun hc => Nat.lt_irrefl _ hc.1),
            if_neg (fun hc => hc.2 rfl), if_pos ⟨Nat.lt_succ_self _, hn⟩]
        · rw [if_neg (fun hc => hb (by rw [← frame_data_length hfr]; exact hc.2.2.1)),
            ih r' c' hc', if_neg (fun hc => Nat.lt_irrefl _ hc.1),
            if_pos ⟨Nat.lt_succ_self _, hn⟩,
            m1.get_oob r' c' (Or.inl (Nat.le_of_not_lt hb)),
            m1.get_oob r' pc (Or.inl (Nat.le_of_not_lt hb)), zero_mul, sub_zero]
      · rw [if_neg (fun hc => hr' hc.1), ih r' c' hc']
        by_cases hcond : r' < n ∧ r' ≠ pr
        · rw [if_pos hcond, if_pos ⟨Nat.lt_succ_of_lt hcond.1, hcond.2⟩]
        · rw [if_neg hcond, if_neg (fun hc => hcond
            ⟨Nat.lt_of_le_of_ne (Nat.le_of_lt_succ hc.1) hr', hc.2⟩)]
    · rw [elimStep_of_eq pr pc nC _ n hn, ih r' c' hc']
      have hnpr : n = pr := not_ne_iff.mp hn
      by_cases hcond : r' < n ∧ r' ≠ pr
      · rw [if_pos hcond, if_pos ⟨Nat.lt_succ_of_lt hcond.1, hcond.2⟩]
      · rw [if_neg hcond, if_neg (fun hc => hcond
          ⟨Nat.lt_of_le_of_ne (Nat.le_of_lt_succ hc.1) (fun he => hc.2 (he.trans hnpr)), hc.2⟩)]

/-- The definitional reading of `Matrix.pivot` in terms of its two loops. -/
theorem Matrix.pivot_eq (m : Matrix) (p : Nat × Nat) :
    m.pivot p = (List.range m.activeRows).foldl
      (elimStep p.1 p.2 ((m.data.getD 0 []).length))
      (normalizeRow p.1 (m.get p.1 p.2) ((m.data.getD 0 []).length) m) := rfl

/-! ### Characterization of the row scan of
`find_most_positive_in_bottom_row` -/

/-- One step of the column scan, from the right. -/
theorem scanGo_append (acc : Option (Nat × ℚ)) (k : Nat) (l : List ℚ) (x : ℚ) :
    scanGo acc k (l ++ [x]) =
      (if x > 0 then
        match scanGo acc k l with
        | some (_, val) => if x > val then some (k + l.length, x) else scanGo acc k l
        | none => some (k + l.length, x)
      else scanGo acc k l) := by
  induction l generalizing acc k with
  | nil => simp [scanGo]
  | cons y l ih =>
    rw [List.cons_append]
    show scanGo _ (k + 1) (l ++ [x]) = _
    rw [ih]
    have harith : k + 1 + l.length = k + (y :: l).length := by
      simp [Nat.add_comm, Nat.add_assoc, Nat.add_left_comm]
    rw [harith]
    rfl

/-- Entry `i` of a list is a member when `i` is in range. -/
theorem getD_mem_of_lt (l : List ℚ) (i : Nat) (h : i < l.length) : l.getD i 0 ∈ l := by
  rw [List.getD_eq_getElem _ _ h]
  exact List.getElem_mem h

/-- Full characterization of the column scan: `none` exactly when no entry is
positive; otherwise the returned column holds the largest positive entry, and
every strictly earlier column holds a strictly smaller entry. -/
theorem scanRow_spec (l : List ℚ) :
    (scanRow l = none ↔ ∀ x ∈ l, x ≤ 0) ∧
    (∀ c v, scanRow l = some (c, v) →
      c < l.length ∧ l.getD c 0 = v ∧ 0 < v ∧
      (∀ i, i < l.length → l.getD i 0 ≤ v) ∧
      (∀ i, i < c → l.getD i 0 < v)) := by
  induction l using List.reverseRecOn with
  | nil =>
    constructor
    · simp [scanRow, scanGo]
    · intro c v h
      simp [scanRow, scanGo] at h
  | append_singleton l x ih =>
    have hstep := scanGo_append none 0 l x
    rcases hr : scanRow l with - | cv
    · rw [scanRow] at hr
      rw [hr] at hstep
      have hall : ∀ y ∈ l, y ≤ 0 := ih.1.mp hr
      by_cases hx : x > 0
      · rw [if_pos hx] at hstep
        have hthis : scanRow (l ++ [x]) = some (0 + l.length, x) := by
          rw [scanRow, hstep]
        constructor
        · rw [hthis]
          constructor
          · intro h; exact absurd h (by simp)
          · intro h; exact absurd (h x (by simp)) (not_le.mpr hx)
        · intro c v h
          rw [hthis] at h
          have hcv := Option.some_injective _ h
          have hc : 0 + l.length = c := congrArg Prod.fst hcv
          have hv : x = v := congrArg Prod.snd hcv
          subst hc; subst hv
          refine ⟨by simp, ?_, hx, ?_, ?_⟩
          · rw [Nat.zero_add, List.getD_append_right _ _ _ _ (Nat.le_refl _)]
            simp
          · intro i hi
            rcases Nat.lt_or_ge i l.length with h1 | h1
            · rw [List.getD_append _ _ _ _ h1]
              exact le_of_lt (lt_of_le_of_lt (hall _ (getD_mem_of_lt l i h1)) hx)
            · have h2 : i = l.length :=
                Nat.le_antisymm (Nat.le_of_lt_succ (by simpa using hi)) h1
              subst h2
              rw [List.getD_append_right _ _ _ _ (Nat.le_refl _)]
              simp
          · intro i hi
            rw [Nat.zero_add] at hi
            rw [List.getD_append _ _ _ _ hi]
            exact lt_of_le_of_lt (hall _ (getD_mem_of_lt l i hi)) hx
      · rw [if_neg hx] at hstep
        have hthis : scanRow (l ++ [x]) = none := by
          rw [scanRow, hstep]
        constructor
        · rw [hthis]
          constructor
          · intro _ y hy
            rcases List.mem_append.mp hy with h1 | h1
            · exact hall _ h1
            · rw [List.mem_singleton.mp h1]
              exact not_lt.mp hx
          · intro _
            rfl
        · intro c v h
          rw [hthis] at h
          exact absurd h (by simp)
    · obtain ⟨c₀, v₀⟩ := cv
      rw [scanRow] at hr
      rw [hr] at hstep
      obtain ⟨hlen, hget, hpos, hbound, hearly⟩ := ih.2 c₀ v₀ (by rw [scanRow, hr])
      by_cases hx : x > 0 ∧ x > v₀
      · have hthis : scanRow (l ++ [x]) = some (0 + l.length, x) := by
          rw [scanRow, hstep, if_pos hx.1]
          show (if x > v₀ then some (0 + l.length, x) else some (c₀, v₀)) = _
          rw [if_pos hx.2]
        constructor
        · rw [hthis]
          constructor
          · intro h; exact absurd h (by simp)
          · intro h; exact absurd (h x (by simp)) (not_le.mpr hx.1)
        · intro c v h
          rw [hthis] at h
          have hcv := Option.some_injective _ h
          have hc : 0 + l.length = c := congrArg Prod.fst hcv
          have hv : x = v := congrArg Prod.snd hcv
          subst hc; subst hv
          refine ⟨by simp, ?_, hx.1, ?_, ?_⟩
          · rw [Nat.zero_add, List.getD_append_right _ _ _ _ (Nat.le_refl _)]
            simp
          · intro i hi
            rcases Nat.lt_or_ge i l.length with h1 | h1
            · rw [List.getD_append _ _ _ _ h1]
              exact le_of_lt (lt_of_le_of_lt (hbound i h1) hx.2)
            · have h2 : i = l.length :=
                Nat.le_antisymm (Nat.le_of_lt_succ (by simpa using hi)) h1
              subst h2
              rw [List.getD_append_right _ _ _ _ (Nat.le_refl _)]
              simp
          · intro i hi
            rw [Nat.zero_add] at hi
            rw [List.getD_append _ _ _ _ hi]
            exact lt_of_le_of_lt (hbound i hi) hx.2
      · have hthis : scanRow (l ++ [x]) = some (c₀, v₀) := by
          rw [scanRow, hstep]
          by_cases h1 : x > 0
          · rw [if_pos h1]
            show (if x > v₀ then some (0 + l.length, x) else some (c₀, v₀)) = _
            rw [if_neg (fun h2 => hx ⟨h1, h2⟩)]
          · rw [if_neg h1]
        constructor
        · rw [hthis]
          constructor
          · intro h; exact absurd h (by simp)
          · intro h
            have h2 := h (l.getD c₀ 0) (List.mem_append_left _ (getD_mem_of_lt l c₀ hlen))
            rw [hget] at h2
            exact absurd h2 (not_le.mpr hpos)
        · intro c v h
          rw [hthis] at h
          have hcv := Option.some_injective _ h
          have hc : c₀ = c := congrArg Prod.fst hcv
          have hv : v₀ = v := congrArg Prod.snd hcv
          subst hc; subst hv
          have hxle : x ≤ v₀ := by
            by_cases h1 : x > 0
            · exact not_lt.mp (fun h2 => hx ⟨h1, h2⟩)
            · exact le_of_lt (lt_of_le_of_lt (not_lt.mp h1) hpos)
          refine ⟨Nat.lt_of_lt_of_le hlen (by simp), ?_, hpos, ?_, ?_⟩
          · rw [List.getD_append _ _ _ _ hlen]
            exact hget
          · intro i hi
            rcases Nat.lt_or_ge i l.length with h1 | h1
            · rw [List.getD_append _ _ _ _ h1]
              exact hbound i h1
            · have h2 : i = l.length :=
                Nat.le_antisymm (Nat.le_of_lt_succ (by simpa using hi)) h1
              subst h2
              rw [List.getD_append_right _ _ _ _ (Nat.le_refl _)]
              simpa using hxle
          · intro i hi
            rw [List.getD_append _ _ _ _ (Nat.lt_of_lt_of_le hi (Nat.le_of_lt hlen))]
            exact hearly i hi

/-! ### Characterization of the minimum-ratio row search of `find_pivot` -/

theorem pivotSearch_succ (m : Matrix) (col n : Nat) :
    pivotSearch m col (n + 1) = pivotStep m col (pivotSearch m col n) n := by
  unfold pivotSearch
  rw [List.range_succ, List.foldl_append, List.foldl_cons, List.foldl_nil]

theorem pivotStep_not_cand (m : Matrix) (col : Nat) (st : Option ℚ × Option (Nat × Nat))
    (row : Nat) (h : ¬pivotCand m col row) : pivotStep m col st row = st :=
  if_neg h

theorem pivotStep_cand_none (m : Matrix) (col : Nat) (st : Option ℚ × Option (Nat × Nat))
    (row : Nat) (h : pivotCand m col row) (h1 : st.1 = none) :
    pivotStep m col st row = (some (pivotRatio m col row), some (row, col)) := by
  obtain ⟨s1, s2⟩ := st
  have h2 : s1 = none := h1
  subst h2
  exact if_pos h

theorem pivotStep_cand_lt (m : Matrix) (col : Nat) (st : Option ℚ × Option (Nat × Nat))
    (row : Nat) (h : pivotCand m col row) (val : ℚ) (h1 : st.1 = some val)
    (h2 : pivotRatio m col row < val) :
    pivotStep m col st row = (some (pivotRatio m col row), some (row, col)) := by
  obtain ⟨s1, s2⟩ := st
  have h3 : s1 = some val := h1
  subst h3
  show (if pivotCand m col row then
    if pivotRatio m col row < val then (some (pivotRatio m col row), some (row, col))
    else ((some val : Option ℚ), s2)
    else ((some val : Option ℚ), s2)) = _
  rw [if_pos h, if_pos h2]

theorem pivotStep_cand_ge (m : Matrix) (col : Nat) (st : Option ℚ × Option (Nat × Nat))
    (row : Nat) (h : pivotCand m col row) (val : ℚ) (h1 : st.1 = some val)
    (h2 : ¬pivotRatio m col row < val) : pivotStep m col st row = st := by
  obtain ⟨s1, s2⟩ := st
  have h3 : s1 = some val := h1
  subst h3
  show (if pivotCand m col row then
    if pivotRatio m col row < val then (some (pivotRatio m col row), some (row, col))
    else ((some val : Option ℚ), s2)
    else ((some val : Option ℚ), s2)) = _
  rw [if_pos h, if_neg h2]

/-- Full characterization of the minimum-ratio row search: either no row
among the first `cnt` is a candidate and nothing is found, or the earliest
candidate row of minimal ratio is returned together with its ratio. -/
theorem pivotSearch_inv (m : Matrix) (col : Nat) : ∀ cnt,
    (pivotSearch m col cnt = (none, none) ∧ ∀ r, r < cnt → ¬pivotCand m col r) ∨
    (∃ r, pivotSearch m col cnt = (some (pivotRatio m col r), some (r, col)) ∧
      r < cnt ∧ pivotCand m col r ∧
      (∀ r', r' < cnt → pivotCand m col r' → pivotRatio m col r ≤ pivotRatio m col r') ∧
      (∀ r', r' < r → pivotCand m col r' → pivotRatio m col r < pivotRatio m col r')) := by
  intro cnt
  induction cnt with
  | zero =>
    left
    constructor
    · rfl
    · intro r hr
      exact absurd hr (Nat.not_lt_zero r)
  | succ n ih =>
    rw [pivotSearch_succ]
    rcases ih with ⟨heq, hnone⟩ | ⟨r, heq, hr, hcand, hmin, hearly⟩
    · rw [heq]
      by_cases hc : pivotCand m col n
      · right
        refine ⟨n, pivotStep_cand_none m col (none, none) n hc rfl, Nat.lt_succ_self n, hc,
          ?_, ?_⟩
        · intro r' hr' hc'
          rcases Nat.lt_or_ge r' n with h1 | h1
          · exact absurd hc' (hnone r' h1)
          · have h2 : r' = n := Nat.le_antisymm (Nat.le_of_lt_succ hr') h1
            subst h2
            exact le_refl _
        · intro r' hr' hc'
          exact absurd hc' (hnone r' hr')
      · left
        rw [pivotStep_not_cand m col _ n hc]
        refine ⟨rfl, ?_⟩
        intro r' hr'
        rcases Nat.lt_or_ge r' n with h1 | h1
        · exact hnone r' h1
        · have h2 : r' = n := Nat.le_antisymm (Nat.le_of_lt_succ hr') h1
          subst h2
          exact hc
    · rw [heq]
      by_cases hc : pivotCand m col n
      · by_cases hlt : pivotRatio m col n < pivotRatio m col r
        · right
          refine ⟨n, pivotStep_cand_lt m col _ n hc _ rfl hlt, Nat.lt_succ_self n, hc, ?_, ?_⟩
          · intro r' hr' hc'
            rcases Nat.lt_or_ge r' n with h1 | h1
            · exact le_of_lt (lt_of_lt_of_le hlt (hmin r' h1 hc'))
            · have h2 : r' = n := Nat.le_antisymm (Nat.le_of_lt_succ hr') h1
              subst h2
              exact le_refl _
          · intro r' hr' hc'
            exact lt_of_lt_of_le hlt (hmin r' hr' hc')
        · right
          refine ⟨r, pivotStep_cand_ge m col _ n hc _ rfl hlt, Nat.lt_succ_of_lt hr, hcand,
            ?_, hearly⟩
          intro r' hr' hc'
          rcases Nat.lt_or_ge r' n with h1 | h1
          · exact hmin r' h1 hc'
          · have h2 : r' = n := Nat.le_antisymm (Nat.le_of_lt_succ hr') h1
            subst h2
            exact not_lt.mp hlt
      · right
        rw [pivotStep_not_cand m col _ n hc]
        refine ⟨r, rfl, Nat.lt_succ_of_lt hr, hcand, ?_, hearly⟩
        intro r' hr' hc'
        rcases Nat.lt_or_ge r' n with h1 | h1
        · exact hmin r' h1 hc'
        · have h2 : r' = n := Nat.le_antisymm (Nat.le_of_lt_succ hr') h1
          subst h2
          exact absurd hc' hc

/-! ### The solve loop -/

theorem solveFuel_zero (m : Matrix) :
    solveFuel 0 m = Except.error "No solution found, iterated too many times" := rfl

theorem solveFuel_succ_some (n : Nat) (m : Matrix) (p : Nat × Nat)
    (h : m.find_pivot = some p) : solveFuel (n + 1) m = solveFuel n (m.pivot p) := by
  show (match m.find_pivot with
    | some p => solveFuel n (m.pivot p)
    | none =>
      if m.check_if_we_have_a_solution then Except.ok m
      else Except.error "No feasible solution found") = _
  rw [h]

theorem solveFuel_succ_none (n : Nat) (m : Matrix) (h : m.find_pivot = none) :
    solveFuel (n + 1) m =
      if m.check_if_we_have_a_solution then Except.ok m
      else Except.error "No feasible solution found" := by
  show (match m.find_pivot with
    | some p => solveFuel n (m.pivot p)
    | none =>
      if m.check_if_we_have_a_solution then Except.ok m
      else Except.error "No feasible solution found") = _
  rw [h]

/-- A successful solve is stable under extra fuel. -/
theorem solveFuel_mono : ∀ (n k : Nat) (m m' : Matrix),
    solveFuel n m = Except.ok m' → solveFuel (n + k) m = Except.ok m' := by
  intro n
  induction n with
  | zero =>
    intro k m m' h
    rw [solveFuel_zero] at h
    exact Except.noConfusion h
  | succ n ih =>
    intro k m m' h
    have harith : n + 1 + k = (n + k) + 1 := by omega
    rw [harith]
    rcases hp : m.find_pivot with - | p
    · rw [solveFuel_succ_none n m hp] at h
      rw [solveFuel_succ_none (n + k) m hp]
      exact h
    · rw [solveFuel_succ_some n m p hp] at h
      rw [solveFuel_succ_some (n + k) m p hp]
      exact ih k _ m' h

/-- A solve that succeeds within the source's iteration bound is what
`Matrix::solve` returns. -/
theorem Matrix.solve_of_fuel (n : Nat) (hn : n ≤ 1000000) (m m' : Matrix)
    (h : solveFuel n m = Except.ok m') : m.solve = Except.ok m' := by
  have h2 := solveFuel_mono n (1000000 - n) m m' h
  rw [Nat.add_sub_cancel' hn] at h2
  exact h2

/-- The solve loop only rewrites numeric entries: the shape, phase and counts
of a successful result are those of the input. -/
theorem solveFuel_frame : ∀ (n : Nat) (m m' : Matrix),
    solveFuel n m = Except.ok m' → m'.frame = m.frame := by
  intro n
  induction n with
  | zero =>
    intro m m' h
    rw [solveFuel_zero] at h
    exact Except.noConfusion h
  | succ n ih =>
    intro m m' h
    rcases hp : m.find_pivot with - | p
    · rw [solveFuel_succ_none n m hp] at h
      by_cases hc : m.check_if_we_have_a_solution = true
      · rw [if_pos hc] at h
        rw [← Except.ok.inj h]
      · rw [if_neg hc] at h
        exact Except.noConfusion h
    · rw [solveFuel_succ_some n m p hp] at h
      rw [ih _ _ h, Matrix.pivot_frame]

/-! ### The plan translation -/

/-- Every plan row has a zero charge field or a zero discharge field: the
under-load branch writes `0` into `energy_from_battery_wh` and the over-load
branch writes `0` into `energy_to_battery_wh`. -/
theorem makePlans_zero_field (config : Config) : ∀ (data : List Data) (sol : List ℚ)
    (off : Nat) (p : Plan), p ∈ makePlans config data sol off →
    p.energy_to_battery_wh = 0 ∨ p.energy_from_battery_wh = 0 := by
  intro data
  induction data with
  | nil =>
    intro sol off p hp
    simp [makePlans] at hp
  | cons d rest ih =>
    intro sol off p hp
    by_cases hd : d.power ≤ config.max_consumption
    · rw [makePlans, if_pos hd] at hp
      rcases List.mem_cons.mp hp with h | h
      · right
        rw [h]
      · exact ih sol (off + 1) p h
    · rw [makePlans, if_neg hd] at hp
      rcases List.mem_cons.mp hp with h | h
      · left
        rw [h]
      · exact ih sol off p h

theorem calculationF_none (f : Nat) (data : List Data) (config : Config)
    (h : build_tableau data config = none) : calculationF f data config = none := by
  unfold calculationF
  rw [h]

theorem calculationF_some (f : Nat) (data : List Data) (config : Config)
    (t : List (List ℚ)) (v a : Nat) (h : build_tableau data config = some (t, v, a)) :
    calculationF f data config =
      (match solveFuel f (Matrix.new t v a) with
       | Except.error e => some (Except.error e)
       | Except.ok m1 =>
         match solveFuel f m1.phase_two with
         | Except.error e => some (Except.error e)
         | Except.ok m2 => some (Except.ok (makePlans config data m2.get_solution 0))) := by
  unfold calculationF
  rw [h]

/-- A fully successful run of the fueled calculation, spelled out. -/
theorem calculationF_eval (f : Nat) (data : List Data) (config : Config)
    (t : List (List ℚ)) (v a : Nat) (m1 m2 : Matrix)
    (h : build_tableau data config = some (t, v, a))
    (h1 : solveFuel f (Matrix.new t v a) = Except.ok m1)
    (h2 : solveFuel f m1.phase_two = Except.ok m2) :
    calculationF f data config =
      some (Except.ok (makePlans config data m2.get_solution 0)) := by
  rw [calculationF_some f data config t v a h, h1]
  show (match solveFuel f m1.phase_two with
    | Except.error e => some (Except.error e)
    | Except.ok m2 => some (Except.ok (makePlans config data m2.get_solution 0))) = _
  rw [h2]

/-- Inversion of a successful fueled calculation. -/
theorem calculationF_ok_inv (f : Nat) (data : List Data) (config : Config)
    (plans : List Plan) (h : calculationF f data config = some (Except.ok plans)) :
    ∃ t v a m1 m2, build_tableau data config = some (t, v, a) ∧
      solveFuel f (Matrix.new t v a) = Except.ok m1 ∧
      solveFuel f m1.phase_two = Except.ok m2 ∧
      plans = makePlans config data m2.get_solution 0 := by
  rcases hb : build_tableau data config with - | tva
  · rw [calculationF_none f data config hb] at h
    exact absurd h (by simp)
  · obtain ⟨t, v, a⟩ := tva
    rw [calculationF_some f data config t v a hb] at h
    rcases h1 : solveFuel f (Matrix.new t v a) with e | m1
    · rw [h1] at h
      simp at h
    · rw [h1] at h
      have h' : (match solveFuel f m1.phase_two with
        | Except.error e => some (Except.error e)
        | Except.ok m2 => some (Except.ok (makePlans config data m2.get_solution 0))) =
          some (Except.ok plans) := h
      rcases h2 : solveFuel f m1.phase_two with e | m2
      · rw [h2] at h'
        simp at h'
      · rw [h2] at h'
        simp only [Option.some_inj] at h'
        have h3 := Except.ok.inj h'
        exact ⟨t, v, a, m1, m2, rfl, h1, h2, h3.symm⟩

/-- A successful fueled calculation within the source's iteration bound is
what `calculation` returns. -/
theorem calculationF_ok_mono (f : Nat) (hf : f ≤ 1000000) (data : List Data)
    (config : Config) (plans : List Plan)
    (h : calculationF f data config = some (Except.ok plans)) :
    calculation data config = some (Except.ok plans) := by
  obtain ⟨t, v, a, m1, m2, hb, h1, h2, h3⟩ := calculationF_ok_inv f data config plans h
  have h1' : solveFuel 1000000 (Matrix.new t v a) = Except.ok m1 := by
    have h4 := solveFuel_mono f (1000000 - f) _ _ h1
    rwa [Nat.add_sub_cancel' hf] at h4
  have h2' : solveFuel 1000000 m1.phase_two = Except.ok m2 := by
    have h4 := solveFuel_mono f (1000000 - f) _ _ h2
    rwa [Nat.add_sub_cancel' hf] at h4
  rw [calculation, calculationF_eval 1000000 data config t v a m1 m2 hb h1' h2', h3]

/-! ### Characterization of `get_solution` -/

/-- Invariant of the counting loop of `get_solution`: the two counters add up
to the number of processed rows, the second counter counts the nonzero
entries, and the remembered value is the right-hand side of the last nonzero
row (or `0` when every processed entry is zero). -/
theorem solutionFold_inv (m : Matrix) (col nc : Nat) : ∀ k,
    ((List.range k).foldl (solutionStep m col nc) (0, 0, 0)).1 +
      ((List.range k).foldl (solutionStep m col nc) (0, 0, 0)).2.1 = k ∧
    ((List.range k).foldl (solutionStep m col nc) (0, 0, 0)).2.1 =
      ((List.range k).filter (fun r => decide (m.get r col ≠ 0))).length ∧
    ((∀ r, r < k → m.get r col = 0) →
      ((List.range k).foldl (solutionStep m col nc) (0, 0, 0)).2.2 = 0) ∧
    (∀ r, r < k → m.get r col ≠ 0 → (∀ r', r < r' → r' < k → m.get r' col = 0) →
      ((List.range k).foldl (solutionStep m col nc) (0, 0, 0)).2.2 = m.get r (nc - 1)) := by
  intro k
  induction k with
  | zero =>
    refine ⟨rfl, rfl, fun _ => rfl, ?_⟩
    intro r hr
    exact absurd hr (Nat.not_lt_zero r)
  | succ n ih =>
    obtain ⟨ihsum, ihcnt, ihzero, ihlast⟩ := ih
    have hstep : (List.range (n + 1)).foldl (solutionStep m col nc) (0, 0, 0) =
        solutionStep m col nc ((List.range n).foldl (solutionStep m col nc) (0, 0, 0)) n := by
      rw [List.range_succ, List.foldl_append, List.foldl_cons, List.foldl_nil]
    have hfilter : (List.range (n + 1)).filter (fun r => decide (m.get r col ≠ 0)) =
        ((List.range n).filter (fun r => decide (m.get r col ≠ 0))) ++
          (if m.get n col ≠ 0 then [n] else []) := by
      rw [List.range_succ, List.filter_append]
      congr 1
      by_cases hz : m.get n col = 0
      · rw [if_neg (fun hc => hc hz)]
        simp [hz]
      · rw [if_pos hz]
        simp [hz]
    by_cases hz : m.get n col = 0
    · have hred : solutionStep m col nc
          ((List.range n).foldl (solutionStep m col nc) (0, 0, 0)) n =
          (((List.range n).foldl (solutionStep m col nc) (0, 0, 0)).1 + 1,
           ((List.range n).foldl (solutionStep m col nc) (0, 0, 0)).2.1,
           ((List.range n).foldl (solutionStep m col nc) (0, 0, 0)).2.2) := by
        unfold solutionStep
        rw [if_pos hz]
      rw [hstep, hred]
      refine ⟨?_, ?_, ?_, ?_⟩
      · show ((List.range n).foldl (solutionStep m col nc) (0, 0, 0)).1 + 1 +
          ((List.range n).foldl (solutionStep m col nc) (0, 0, 0)).2.1 = n + 1
        omega
      · rw [hfilter, if_neg (fun hc => hc hz)]
        simpa using ihcnt
      · intro hall
        exact ihzero (fun r hr => hall r (Nat.lt_succ_of_lt hr))
      · intro r hr hnz hlater
        have hrn : r ≠ n := fun he => hnz (he ▸ hz)
        have hr' : r < n := Nat.lt_of_le_of_ne (Nat.le_of_lt_succ hr) hrn
        exact ihlast r hr' hnz (fun r' h1 h2 => hlater r' h1 (Nat.lt_succ_of_lt h2))
    · have hred : solutionStep m col nc
          ((List.range n).foldl (solutionStep m col nc) (0, 0, 0)) n =
          (((List.range n).foldl (solutionStep m col nc) (0, 0, 0)).1,
           ((List.range n).foldl (solutionStep m col nc) (0, 0, 0)).2.1 + 1,
           m.get n (nc - 1)) := by
        unfold solutionStep
        rw [if_neg hz]
      rw [hstep, hred]
      refine ⟨?_, ?_, ?_, ?_⟩
      · show ((List.range n).foldl (solutionStep m col nc) (0, 0, 0)).1 +
          (((List.range n).foldl (solutionStep m col nc) (0, 0, 0)).2.1 + 1) = n + 1
        omega
      · rw [hfilter, if_pos hz]
        simpa using ihcnt
      · intro hall
        exact absurd (hall n (Nat.lt_succ_self n)) hz
      · intro r hr hnz hlater
        rcases Nat.lt_or_ge r n with h1 | h1
        · exact absurd (hlater n h1 (Nat.lt_succ_self n)) hz
        · have h2 : r = n := Nat.le_antisymm (Nat.le_of_lt_succ hr) h1
          rw [h2]

/-- The entry of `get_solution` for one column, as the counting loop's
verdict. -/
theorem get_solution_getD (m : Matrix) (col : Nat) (h : col < m.«variables») :
    m.get_solution.getD col 0 =
      (if ((List.range m.data.length).foldl
            (solutionStep m col ((m.data.getD 0 []).length)) (0, 0, 0)).1 =
          m.data.length - 1 ∧
          ((List.range m.data.length).foldl
            (solutionStep m col ((m.data.getD 0 []).length)) (0, 0, 0)).2.1 = 1 then
        ((List.range m.data.length).foldl
          (solutionStep m col ((m.data.getD 0 []).length)) (0, 0, 0)).2.2
      else 0) := by
  unfold Matrix.get_solution
  have hlen : col < ((List.range m.«variables»).map (fun col =>
      let st := (List.range m.data.length).foldl
        (solutionStep m col ((m.data.getD 0 []).length)) (0, 0, 0)
      if st.1 = m.data.length - 1 ∧ st.2.1 = 1 then st.2.2 else 0)).length := by
    simpa using h
  rw [List.getD_eq_getElem _ _ hlen, List.getElem_map]
  simp

/-- C6 (amended): the value reported by `get_solution` for a column is the
right-hand side of the unique nonzero row whenever exactly one row holds a
nonzero entry there, regardless of that entry's value, and `0` whenever the
number of nonzero rows differs from one.  No unit-entry condition is
involved, contrary to the claim's final clause. -/
theorem C6_get_solution_spec (m : Matrix) (col : Nat) (h : col < m.«variables») :
    (∀ r, (List.range m.data.length).filter (fun r => decide (m.get r col ≠ 0)) = [r] →
      m.get_solution.getD col 0 = m.get r ((m.data.getD 0 []).length - 1)) ∧
    (((List.range m.data.length).filter (fun r => decide (m.get r col ≠ 0))).length ≠ 1 →
      m.get_solution.getD col 0 = 0) := by
  obtain ⟨hsum, hcnt, hzero, hlast⟩ :=
    solutionFold_inv m col ((m.data.getD 0 []).length) m.data.length
  rw [get_solution_getD m col h]
  constructor
  · intro r hfil
    have hone : ((List.range m.data.length).foldl
        (solutionStep m col ((m.data.getD 0 []).length)) (0, 0, 0)).2.1 = 1 := by
      rw [hcnt, hfil]
      rfl
    have hzeq : ((List.range m.data.length).foldl
        (solutionStep m col ((m.data.getD 0 []).length)) (0, 0, 0)).1 =
        m.data.length - 1 := by
      omega
    rw [if_pos ⟨hzeq, hone⟩]
    have hrmem : r ∈ (List.range m.data.length).filter
        (fun r => decide (m.get r col ≠ 0)) := by
      rw [hfil]
      exact List.mem_singleton_self r
    have hrlt : r < m.data.length := List.mem_range.mp (List.mem_filter.mp hrmem).1
    have hrnz : m.get r col ≠ 0 := by
      have h2 := (List.mem_filter.mp hrmem).2
      simpa using h2
    refine hlast r hrlt hrnz ?_
    intro r' h1 h2
    by_contra hnz'
    have hmem' : r' ∈ (List.range m.data.length).filter
        (fun r => decide (m.get r col ≠ 0)) := by
      rw [List.mem_filter]
      exact ⟨List.mem_range.mpr h2, by simpa using hnz'⟩
    rw [hfil, List.mem_singleton] at hmem'
    exact absurd h1 (by omega)
  · intro hne
    rw [if_neg]
    intro hcond
    rw [hcnt] at hcond
    exact hne hcond.2

/-! ### Shape invariants of the tableau builder -/

theorem setE_eq_some (r : List ℚ) (i : Nat) (v : ℚ) (r1 : List ℚ) :
    setE r i v = some r1 ↔ i < r.length ∧ r1 = r.set i v := by
  unfold setE
  by_cases hlt : i < r.length
  · rw [if_pos hlt]
    constructor
    · intro h
      exact ⟨hlt, (Option.some.inj h).symm⟩
    · intro h
      rw [h.2]
  · rw [if_neg hlt]
    constructor
    · intro h
      exact Option.noConfusion h
    · intro h
      exact absurd h.1 hlt

theorem setE_some_length (r : List ℚ) (i : Nat) (v : ℚ) (r1 : List ℚ)
    (h : setE r i v = some r1) : r1.length = r.length := by
  obtain ⟨-, h2⟩ := (setE_eq_some r i v r1).mp h
  rw [h2, List.length_set]

theorem negate_length (v : List ℚ) : (negate v).length = v.length :=
  List.length_map _ _

/-- A fallible fold whose step preserves an observation preserves it on
success. -/
theorem foldlM_option_preserves {α β : Type} (f : α → β) (g : α → Nat → Option α)
    (hg : ∀ a i b, g a i = some b → f b = f a) :
    ∀ (l : List Nat) (init out : α), l.foldlM g init = some out → f out = f init := by
  intro l
  induction l with
  | nil =>
    intro init out h
    rw [List.foldlM_nil] at h
    exact congrArg f (Option.some.inj h).symm
  | cons x xs ih =>
    intro init out h
    rw [List.foldlM_cons] at h
    rcases hx : g init x with - | a1
    · rw [hx] at h
      exact Option.noConfusion h
    · rw [hx] at h
      have h2 : xs.foldlM g a1 = some out := h
      rw [ih a1 out h2, hg init x a1 hx]

theorem setRangeE_some_length (r : List ℚ) (k : Nat) (c : ℚ) (r1 : List ℚ)
    (h : setRangeE r k c = some r1) : r1.length = r.length :=
  foldlM_option_preserves List.length (fun acc j => setE acc j c)
    (fun a i b hb => setE_some_length a i c b hb) (List.range k) r r1 h

theorem chargeFillStep_some (eff : ℚ) (b : Bool) (p q : List ℚ × List ℚ) (j : Nat)
    (h : chargeFillStep eff b p j = some q) :
    q.1.length = p.1.length ∧ q.2.length = p.2.length := by
  unfold chargeFillStep at h
  split at h
  · exact Option.noConfusion h
  · rename_i eq1 heq
    split at h
    · split at h
      · exact Option.noConfusion h
      · rename_i cur hcur
        split at h
        · exact Option.noConfusion h
        · rename_i inter1 hinter
          rw [← Option.some.inj h]
          exact ⟨setE_some_length _ _ _ _ heq, setE_some_length _ _ _ _ hinter⟩
    · rw [← Option.some.inj h]
      exact ⟨setE_some_length _ _ _ _ heq, rfl⟩

theorem chargeFill_some (k : Nat) (eff : ℚ) (b : Bool) (eq inter : List ℚ)
    (q : List ℚ × List ℚ) (h : chargeFill k eff b eq inter = some q) :
    q.1.length = eq.length ∧ q.2.length = inter.length := by
  have h2 := foldlM_option_preserves (fun (p : List ℚ × List ℚ) => (p.1.length, p.2.length))
    (chargeFillStep eff b)
    (fun a i c hc => by
      obtain ⟨hc1, hc2⟩ := chargeFillStep_some eff b a c i hc
      show (c.1.length, c.2.length) = (a.1.length, a.2.length)
      rw [hc1, hc2])
    (List.range k) (eq, inter) q h
  exact ⟨congrArg Prod.fst h2, congrArg Prod.snd h2⟩

/-- The max-power-charge loop only produces rows of width `cols`. -/
theorem maxPowerRows_spec (c : Config) (cols cv : Nat) :
    ∀ (data : List Data) (i xoff lc : Nat) (out : List (List ℚ) × Nat),
      maxPowerRows c cols cv data i xoff lc = some out →
      ∀ row ∈ out.1, row.length = cols := by
  intro data
  induction data with
  | nil =>
    intro i xoff lc out h row hrow
    rw [← Option.some.inj h] at hrow
    simp at hrow
  | cons d rest ih =>
    intro i xoff lc out h row hrow
    rw [maxPowerRows] at h
    by_cases hd : d.power ≥ c.max_consumption
    · rw [if_pos hd] at h
      exact ih (i + 1) (xoff + 1) lc out h row hrow
    · rw [if_neg hd] at h
      simp only [Option.bind_eq_bind] at h
      obtain ⟨eq1, h1, h⟩ := Option.bind_eq_some.mp h
      obtain ⟨eq2, h2, h⟩ := Option.bind_eq_some.mp h
      obtain ⟨eq3, h3, h⟩ := Option.bind_eq_some.mp h
      obtain ⟨o1, h4, h⟩ := Option.bind_eq_some.mp h
      obtain ⟨rows1, lc1⟩ := o1
      rw [← Option.some.inj h] at hrow
      rcases List.mem_cons.mp hrow with he | he
      · rw [he]
        calc eq3.length = eq2.length := setE_some_length _ _ _ _ h3
          _ = eq1.length := setE_some_length _ _ _ _ h2
          _ = (List.replicate cols (0 : ℚ)).length := setE_some_length _ _ _ _ h1
          _ = cols := List.length_replicate _ _
      · exact ih (i + 1) xoff (lc + 1) (rows1, lc1) h4 row he

/-- The battery-capacity loop produces rows of width `cols` and never
decreases the artificial-column cursor. -/
theorem capacityRows_spec (c : Config) (cols cv : Nat) (bmax b0 : ℚ) :
    ∀ (data : List Data) (i xoff : Nat) (dis : ℚ) (lc aoff : Nat)
      (out : List (List ℚ) × Nat × Nat),
      capacityRows c cols cv bmax b0 data i xoff dis lc aoff = some out →
      (∀ row ∈ out.1, row.length = cols) ∧ aoff ≤ out.2.2 := by
  intro data
  induction data with
  | nil =>
    intro i xoff dis lc aoff out h
    rw [← Option.some.inj h]
    constructor
    · intro row hrow
      simp at hrow
    · exact Nat.le_refl aoff
  | cons d rest ih =>
    intro i xoff dis lc aoff out h
    rw [capacityRows] at h
    by_cases hd : d.power ≥ c.max_consumption
    · rw [if_pos hd] at h
      exact ih (i + 1) (xoff + 1) (dis + (d.power - c.max_consumption)) lc aoff out h
    · rw [if_neg hd] at h
      simp only [Option.bind_eq_bind, Option.pure_def, Option.some_bind] at h
      obtain ⟨eq1, h1, h⟩ := Option.bind_eq_some.mp h
      obtain ⟨eq2, h2, h⟩ := Option.bind_eq_some.mp h
      obtain ⟨eq3, h3, h⟩ := Option.bind_eq_some.mp h
      have hlen3 : eq3.length = cols := by
        calc eq3.length = eq2.length := setE_some_length _ _ _ _ h3
          _ = eq1.length := setE_some_length _ _ _ _ h2
          _ = (List.replicate cols (0 : ℚ)).length := setRangeE_some_length _ _ _ _ h1
          _ = cols := List.length_replicate _ _
      by_cases hlim : bmax + dis - b0 < 0
      · rw [if_pos hlim] at h
        obtain ⟨eq5, h6, h⟩ := Option.bind_eq_some.mp h
        obtain ⟨o2, h5, h⟩ := Option.bind_eq_some.mp h
        obtain ⟨rows1, lc1, aoff2⟩ := o2
        obtain ⟨hrec, hmono⟩ :=
          ih (i + 1) xoff dis (lc + 1) (aoff + 1) (rows1, lc1, aoff2) h5
        rw [← Option.some.inj h]
        constructor
        · intro row hrow
          rcases List.mem_cons.mp hrow with he | he
          · rw [he]
            calc eq5.length = (negate eq3).length := setE_some_length _ _ _ _ h6
              _ = eq3.length := negate_length eq3
              _ = cols := hlen3
          · exact hrec row he
        · exact Nat.le_trans (Nat.le_succ aoff) hmono
      · rw [if_neg hlim] at h
        obtain ⟨o2, h5, h⟩ := Option.bind_eq_some.mp h
        obtain ⟨rows1, lc1, aoff2⟩ := o2
        obtain ⟨hrec, hmono⟩ := ih (i + 1) xoff dis (lc + 1) aoff (rows1, lc1, aoff2) h5
        rw [← Option.some.inj h]
        constructor
        · intro row hrow
          rcases List.mem_cons.mp hrow with he | he
          · rw [he]
            exact hlen3
          · exact hrec row he
        · exact hmono

/-- The discharge loop produces rows of width `cols`, never decreases the
artificial-column cursor and keeps the intermediate row's width. -/
theorem dischargeRows_spec (c : Config) (cols cv : Nat) (b0 : ℚ) :
    ∀ (data : List Data) (i xoff : Nat) (dis : ℚ) (lc aoff : Nat) (inter : List ℚ)
      (out : List (List ℚ) × Nat × Nat × List ℚ × ℚ),
      dischargeRows c cols cv b0 data i xoff dis lc aoff inter = some out →
      (∀ row ∈ out.1, row.length = cols) ∧ aoff ≤ out.2.2.1 ∧
        out.2.2.2.1.length = inter.length := by
  intro data
  induction data with
  | nil =>
    intro i xoff dis lc aoff inter out h
    rw [← Option.some.inj h]
    refine ⟨?_, Nat.le_refl aoff, rfl⟩
    intro row hrow
    simp at hrow
  | cons d rest ih =>
    intro i xoff dis lc aoff inter out h
    rw [dischargeRows] at h
    by_cases hd : d.power ≥ c.max_consumption
    · rw [if_pos hd] at h
      simp only [Option.bind_eq_bind, Option.pure_def, Option.some_bind] at h
      obtain ⟨o1, h1, h⟩ := Option.bind_eq_some.mp h
      obtain ⟨eq1, inter1⟩ := o1
      obtain ⟨eq2, h2, h⟩ := Option.bind_eq_some.mp h
      obtain ⟨eq3, h3, h⟩ := Option.bind_eq_some.mp h
      obtain ⟨hf1, hf2⟩ := chargeFill_some _ _ _ _ _ _ h1
      have hlen3 : eq3.length = cols := by
        calc eq3.length = eq2.length := setE_some_length _ _ _ _ h3
          _ = eq1.length := setE_some_length _ _ _ _ h2
          _ = (List.replicate cols (0 : ℚ)).length := hf1
          _ = cols := List.length_replicate _ _
      by_cases hlim : dis + (d.power - c.max_consumption) - b0 < 0
      · rw [if_pos hlim] at h
        obtain ⟨o3, h5, h⟩ := Option.bind_eq_some.mp h
        obtain ⟨rows1, out1⟩ := o3
        obtain ⟨hrec1, hrec2, hrec3⟩ :=
          ih (i + 1) (xoff + 1) (dis + (d.power - c.max_consumption)) (lc + 1) aoff inter1
            (rows1, out1) h5
        rw [← Option.some.inj h]
        refine ⟨?_, hrec2, by rw [hrec3]; exact hf2⟩
        intro row hrow
        rcases List.mem_cons.mp hrow with he | he
        · rw [he, negate_length]
          exact hlen3
        · exact hrec1 row he
      · rw [if_neg hlim] at h
        obtain ⟨eq5, h6, h⟩ := Option.bind_eq_some.mp h
        obtain ⟨inter3, h7, h⟩ := Option.bind_eq_some.mp h
        obtain ⟨cur, h8, h⟩ := Option.bind_eq_some.mp h
        obtain ⟨inter4, h9, h⟩ := Option.bind_eq_some.mp h
        obtain ⟨o3, h5, h⟩ := Option.bind_eq_some.mp h
        obtain ⟨rows1, out1⟩ := o3
        obtain ⟨hrec1, hrec2, hrec3⟩ :=
          ih (i + 1) (xoff + 1) (dis + (d.power - c.max_consumption)) (lc + 1) (aoff + 1)
            inter4 (rows1, out1) h5
        rw [← Option.some.inj h]
        refine ⟨?_, Nat.le_trans (Nat.le_succ aoff) hrec2, ?_⟩
        · intro row hrow
          rcases List.mem_cons.mp hrow with he | he
          · rw [he, setE_some_length _ _ _ _ h6]
            exact hlen3
          · exact hrec1 row he
        · rw [hrec3]
          calc inter4.length = inter3.length := setE_some_length _ _ _ _ h9
            _ = inter1.length := setE_some_length _ _ _ _ h7
            _ = inter.length := hf2
    · rw [if_neg hd] at h
      exact ih (i + 1) xoff dis lc aoff inter out h

/-- The final-battery equation has width `cols`, does not decrease the
artificial-column cursor and keeps the intermediate row's width. -/
theorem finalRowE_spec (c : Config) (cols cv : Nat) (b0 bfinal dis : ℚ) (lc aoff : Nat)
    (inter : List ℚ) (out : List ℚ × Nat × List ℚ)
    (h : finalRowE c cols cv b0 bfinal dis lc aoff inter = some out) :
    out.1.length = cols ∧ aoff ≤ out.2.1 ∧ out.2.2.length = inter.length := by
  unfold finalRowE at h
  simp only [Option.bind_eq_bind] at h
  obtain ⟨o1, h1, h⟩ := Option.bind_eq_some.mp h
  obtain ⟨eq1, inter1⟩ := o1
  obtain ⟨hf1, hf2⟩ := chargeFill_some _ _ _ _ _ _ h1
  have hlen1 : eq1.length = cols := by
    rw [hf1, List.length_replicate]
  by_cases hlim : bfinal - b0 + dis ≥ 0
  · rw [if_pos hlim] at h
    simp only [Option.bind_eq_bind] at h
    obtain ⟨eq2, h2, h⟩ := Option.bind_eq_some.mp h
    obtain ⟨inter2, h3, h⟩ := Option.bind_eq_some.mp h
    obtain ⟨eq3, h4, h⟩ := Option.bind_eq_some.mp h
    obtain ⟨eq4, h5, h⟩ := Option.bind_eq_some.mp h
    obtain ⟨cur, h6, h⟩ := Option.bind_eq_some.mp h
    obtain ⟨inter3, h7, h⟩ := Option.bind_eq_some.mp h
    rw [← Option.some.inj h]
    refine ⟨?_, Nat.le_succ aoff, ?_⟩
    · calc eq4.length = eq3.length := setE_some_length _ _ _ _ h5
        _ = eq2.length := setE_some_length _ _ _ _ h4
        _ = eq1.length := setE_some_length _ _ _ _ h2
        _ = cols := hlen1
    · calc inter3.length = inter2.length := setE_some_length _ _ _ _ h7
        _ = inter1.length := setE_some_length _ _ _ _ h3
        _ = inter.length := hf2
  · rw [if_neg hlim] at h
    simp only [Option.bind_eq_bind] at h
    obtain ⟨eq2, h2, h⟩ := Option.bind_eq_some.mp h
    obtain ⟨eq3, h3, h⟩ := Option.bind_eq_some.mp h
    rw [← Option.some.inj h]
    refine ⟨?_, Nat.le_refl aoff, hf2⟩
    calc eq3.length = eq2.length := setE_some_length _ _ _ _ h3
      _ = (negate eq1).length := setE_some_length _ _ _ _ h2
      _ = eq1.length := negate_length eq1
      _ = cols := hlen1

/-- The price-objective loop keeps the row's width. -/
theorem priceRowE_spec (c : Config) :
    ∀ (data : List Data) (i xoff : Nat) (eq out : List ℚ),
      priceRowE c data i xoff eq = some out → out.length = eq.length := by
  intro data
  induction data with
  | nil =>
    intro i xoff eq out h
    rw [← Option.some.inj h]
  | cons d rest ih =>
    intro i xoff eq out h
    rw [priceRowE] at h
    by_cases hd : d.power ≥ c.max_consumption
    · rw [if_pos hd] at h
      exact ih (i + 1) (xoff + 1) eq out h
    · rw [if_neg hd] at h
      simp only [Option.bind_eq_bind] at h
      obtain ⟨eq1, h1, h⟩ := Option.bind_eq_some.mp h
      rw [ih (i + 1) xoff eq1 out h, setE_some_length _ _ _ _ h1]

/-- A successful trim proves the cursor was in range and fixes the row's
final width. -/
theorem trimRow_some (aoff cols : Nat) (r r1 : List ℚ)
    (h : trimRow aoff cols r = some r1) :
    aoff < r.length ∧ r1.length = aoff + 1 := by
  unfold trimRow at h
  simp only [Option.bind_eq_bind] at h
  obtain ⟨v, h1, h⟩ := Option.bind_eq_some.mp h
  obtain ⟨r2, h2, h⟩ := Option.bind_eq_some.mp h
  obtain ⟨hlt, hset⟩ := (setE_eq_some _ _ _ _).mp h2
  refine ⟨hlt, ?_⟩
  rw [← Option.some.inj h, List.length_take, hset, List.length_set]
  omega

theorem trimAll_spec (aoff cols : Nat) :
    ∀ (L out : List (List ℚ)), trimAll aoff cols L = some out →
      ∀ r1 ∈ out, ∃ r ∈ L, trimRow aoff cols r = some r1 := by
  intro L
  induction L with
  | nil =>
    intro out h r1 hr1
    rw [← Option.some.inj h] at hr1
    simp at hr1
  | cons r rest ih =>
    intro out h r1 hr1
    rw [trimAll] at h
    simp only [Option.bind_eq_bind] at h
    obtain ⟨r2, h1, h⟩ := Option.bind_eq_some.mp h
    obtain ⟨rest2, h2, h⟩ := Option.bind_eq_some.mp h
    rw [← Option.some.inj h] at hr1
    rcases List.mem_cons.mp hr1 with he | he
    · exact ⟨r, List.mem_cons_self r rest, by rw [← he] at h1; exact h1⟩
    · obtain ⟨r0, hr0, h3⟩ := ih rest2 h2 r1 he
      exact ⟨r0, List.mem_cons_of_mem r hr0, h3⟩

/-- C10 (amended): whenever `build_tableau` completes without a panic, the returned
variable count is the number of intervals with power at most
`max_consumption`, and every row of the trimmed tableau has width equal to
the variable count, plus the slack count `2v + (n - v) + 1`, plus the used
artificial count, plus one right-hand-side column. -/
theorem C10_build_tableau_shape (data : List Data) (config : Config)
    (t : List (List ℚ)) (v a : Nat)
    (h : build_tableau data config = some (t, v, a)) :
    v = (data.filter (fun d => d.power ≤ config.max_consumption)).length ∧
    ∀ row ∈ t, row.length = v + (2 * v + (data.length - v) + 1) + a + 1 := by
  unfold build_tableau at h
  simp only [Option.bind_eq_bind, Option.pure_def, Option.some_bind] at h
  obtain ⟨o1, h1, h⟩ := Option.bind_eq_some.mp h
  obtain ⟨rows1, lc1⟩ := o1
  obtain ⟨o2, h2, h⟩ := Option.bind_eq_some.mp h
  obtain ⟨rows2, lc2, aoff2⟩ := o2
  obtain ⟨o3, h3, h⟩ := Option.bind_eq_some.mp h
  obtain ⟨rows3, lc3, aoff3, inter3, dis⟩ := o3
  obtain ⟨o4, h4, h⟩ := Option.bind_eq_some.mp h
  obtain ⟨finalEq, aoffF, interF⟩ := o4
  obtain ⟨priceEq, h5, h⟩ := Option.bind_eq_some.mp h
  obtain ⟨result, h6, h⟩ := Option.bind_eq_some.mp h
  have hinj := Option.some.inj h
  have ht : result = t := congrArg (fun x => x.1) hinj
  have hv : (data.filter (fun d => d.power ≤ config.max_consumption)).length = v :=
    congrArg (fun x => x.2.1) hinj
  have ha : (data.filter (fun d => d.power ≤ config.max_consumption)).length +
      (2 * (data.filter (fun d => d.power ≤ config.max_consumption)).length +
        (data.length -
          (data.filter (fun d => d.power ≤ config.max_consumption)).length) + 1) + a =
      aoffF := by
    have ha0 : aoffF -
        (data.filter (fun d => d.power ≤ config.max_consumption)).length -
        (2 * (data.filter (fun d => d.power ≤ config.max_consumption)).length +
          (data.length -
            (data.filter (fun d => d.power ≤ config.max_consumption)).length) + 1) = a :=
      congrArg (fun x => x.2.2) hinj
    have hm2 : (data.filter (fun d => d.power ≤ config.max_consumption)).length +
        (2 * (data.filter (fun d => d.power ≤ config.max_consumption)).length +
          (data.length -
            (data.filter (fun d => d.power ≤ config.max_consumption)).length) + 1) ≤
        aoff2 :=
      (capacityRows_spec config _ _ _ _ data 0 0 0 lc1 _ (rows2, lc2, aoff2) h2).2
    have hm3 : aoff2 ≤ aoff3 :=
      (dischargeRows_spec config _ _ _ data 0 0 0 lc2 aoff2 _
        (rows3, lc3, aoff3, inter3, dis) h3).2.1
    have hm4 : aoff3 ≤ aoffF :=
      (finalRowE_spec config _ _ _ _ dis lc3 aoff3 inter3
        (finalEq, aoffF, interF) h4).2.1
    omega
  refine ⟨hv.symm, ?_⟩
  intro row hrow
  rw [← ht] at hrow
  obtain ⟨r0, hr0, htrim⟩ := trimAll_spec _ _ _ result h6 row hrow
  have hr0len : r0.length =
      (data.filter (fun d => d.power ≤ config.max_consumption)).length +
      (2 * (data.filter (fun d => d.power ≤ config.max_consumption)).length +
        (data.length -
          (data.filter (fun d => d.power ≤ config.max_consumption)).length) + 1) +
      ((data.length -
          (data.filter (fun d => d.power ≤ config.max_consumption)).length) + 1) + 1 := by
    rcases List.mem_append.mp hr0 with hr1 | hr1
    · rcases List.mem_append.mp hr1 with hr2 | hr2
      · rcases List.mem_append.mp hr2 with hr3 | hr3
        · exact maxPowerRows_spec config _ _ data 0 0 0 (rows1, lc1) h1 r0 hr3
        · exact (capacityRows_spec config _ _ _ _ data 0 0 0 lc1 _
            (rows2, lc2, aoff2) h2).1 r0 hr3
      · exact (dischargeRows_spec config _ _ _ data 0 0 0 lc2 aoff2 _
          (rows3, lc3, aoff3, inter3, dis) h3).1 r0 hr2
    · rcases List.mem_cons.mp hr1 with hr2 | hr2
      · rw [hr2]
        exact (finalRowE_spec config _ _ _ _ dis lc3 aoff3 inter3
          (finalEq, aoffF, interF) h4).1
      · rcases List.mem_cons.mp hr2 with hr3 | hr3
        · rw [hr3]
          rw [priceRowE_spec config data 0 0 _ priceEq h5, List.length_replicate]
        · rcases List.mem_cons.mp hr3 with hr4 | hr4
          · rw [hr4]
            have hi3 : inter3.length = (List.replicate
                ((data.filter (fun d => d.power ≤ config.max_consumption)).length +
                  (2 * (data.filter (fun d => d.power ≤ config.max_consumption)).length +
                    (data.length -
                      (data.filter
                        (fun d => d.power ≤ config.max_consumption)).length) + 1) +
                  ((data.length -
                      (data.filter
                        (fun d => d.power ≤ config.max_consumption)).length) + 1) + 1)
                (0 : ℚ)).length :=
              (dischargeRows_spec config _ _ _ data 0 0 0 lc2 aoff2 _
                (rows3, lc3, aoff3, inter3, dis) h3).2.2
            have hiF : interF.length = inter3.length :=
              (finalRowE_spec config _ _ _ _ dis lc3 aoff3 inter3
                (finalEq, aoffF, interF) h4).2.2
            rw [hiF, hi3, List.length_replicate]
          · simp at hr4
  obtain ⟨hcur, hlen⟩ := trimRow_some _ _ _ _ htrim
  have hlen2 : row.length = aoffF + 1 := hlen
  rw [hlen2, ← hv]
  omega

/-! ### The claims -/

/-- C1 (counterexample): the claim's row exclusions are the code's swapped
between the phases.  On the phase-one matrix `Mc1` the code searches only
rows 0 and 1 and picks row 1 (ratio 1), while the claim's rule also admits
row 2 (ratio 0) and would pick it; so the claim is false as stated. -/
theorem C1_counterexample :
    Mc1.find_pivot = some (1, 0) ∧ find_pivot_claimC1 Mc1 = some (2, 0) ∧
      some ((1 : Nat), (0 : Nat)) ≠ some ((2 : Nat), (0 : Nat)) := by
  refine ⟨?_, ?_, by decide⟩ <;> with_unfolding_all decide

/-- C1 (amended): candidate rows exclude the last two rows of the tableau in
Phase One and the last row in Phase Two; among the remaining rows, exactly
those with a strictly positive pivot-column entry and a non-negative RHS are
candidates, the row minimizing RHS/entry is chosen, on ties the
earliest-found row is kept, and no pivot is reported when no candidate row
(or no pivot column) exists. -/
theorem C1_find_pivot_spec (m : Matrix) :
    (m.find_most_positive_in_bottom_row = none → m.find_pivot = none) ∧
    (∀ col x, m.find_most_positive_in_bottom_row = some (col, x) →
      ((m.find_pivot = none ↔ ∀ r, r < rowSearchCount m → ¬pivotCand m col r) ∧
       (∀ r c, m.find_pivot = some (r, c) →
         c = col ∧ r < rowSearchCount m ∧ pivotCand m col r ∧
         (∀ r', r' < rowSearchCount m → pivotCand m col r' →
           pivotRatio m col r ≤ pivotRatio m col r') ∧
         (∀ r', r' < r → pivotCand m col r' →
           pivotRatio m col r < pivotRatio m col r')))) := by
  constructor
  · intro h
    unfold Matrix.find_pivot
    rw [h]
  · intro col x h
    have hfp : m.find_pivot = (pivotSearch m col (rowSearchCount m)).2 := by
      unfold Matrix.find_pivot
      rw [h]
      rfl
    rcases pivotSearch_inv m col (rowSearchCount m) with ⟨heq, hnone⟩ |
      ⟨r0, heq, hr0, hcand0, hmin0, hearly0⟩
    · rw [heq] at hfp
      constructor
      · rw [hfp]
        exact ⟨fun _ => hnone, fun _ => rfl⟩
      · intro r c hsome
        rw [hfp] at hsome
        exact absurd hsome (by simp)
    · rw [heq] at hfp
      constructor
      · rw [hfp]
        constructor
        · intro habs
          exact absurd habs (by simp)
        · intro hnone
          exact absurd hcand0 (hnone r0 hr0)
      · intro r c hsome
        rw [hfp] at hsome
        have hcv := Option.some.inj hsome
        have hr : r0 = r := congrArg Prod.fst hcv
        have hc : col = c := congrArg Prod.snd hcv
        subst hr
        subst hc
        exact ⟨rfl, hr0, hcand0, hmin0, hearly0⟩

/-- C1 (witness): the amended description instantiated on `Mc1`, where the
pivot is row 1, a candidate row whose ratio is minimal among rows 0-1. -/
theorem C1_witness :
    Mc1.find_pivot = some (1, 0) ∧ pivotCand Mc1 0 1 ∧
      pivotRatio Mc1 0 1 ≤ pivotRatio Mc1 0 0 := by
  have hmost : Mc1.find_most_positive_in_bottom_row = some (0, 1) := by
    with_unfolding_all decide
  have hfp : Mc1.find_pivot = some (1, 0) := by
    with_unfolding_all decide
  obtain ⟨-, hsome⟩ := (C1_find_pivot_spec Mc1).2 0 1 hmost
  obtain ⟨-, -, hcand, hmin, -⟩ := hsome 1 0 hfp
  refine ⟨hfp, hcand, hmin 0 (by with_unfolding_all decide) ?_⟩
  with_unfolding_all decide

/-- C2 (counterexample): the claim places the intermediate-objective row
second from the bottom and the true objective row at the bottom, which is
the code's layout swapped.  On the phase-one matrix `Mc2` the code scans the
bottom row and returns the entry `5`, while the claim's reading scans the
second-from-bottom row and returns `1`; so the claim is false as stated. -/
theorem C2_counterexample :
    Mc2.find_most_positive_in_bottom_row = some (0, 5) ∧
      find_most_claimC2 Mc2 = some (0, 1) ∧
      some ((0 : Nat), (5 : ℚ)) ≠ some ((0 : Nat), (1 : ℚ)) := by
  refine ⟨?_, ?_, by with_unfolding_all decide⟩ <;> with_unfolding_all decide

/-- C2 (amended): the row scanned in Phase One is the intermediate-objective
row, which is the bottom row, excluding only its RHS column; in Phase Two it
is the true objective row, which is the second-from-bottom row, excluding
the last `artificials + 1` columns (the RHS and the artificial-variable
columns); the column with the strictly largest positive coefficient is
selected, ties keeping the earliest-found column, and `none` is returned
when no coefficient is positive. -/
theorem C2_find_most_spec (m : Matrix) :
    (m.find_most_positive_in_bottom_row = none ↔ ∀ x ∈ scannedRow m, x ≤ 0) ∧
    (∀ c v, m.find_most_positive_in_bottom_row = some (c, v) →
      c < (scannedRow m).length ∧ (scannedRow m).getD c 0 = v ∧ 0 < v ∧
      (∀ i, i < (scannedRow m).length → (scannedRow m).getD i 0 ≤ v) ∧
      (∀ i, i < c → (scannedRow m).getD i 0 < v)) :=
  scanRow_spec (scannedRow m)

/-- C2 (witness): the amended description instantiated on `Mw2`, whose
scanned row is `[2, 7]` and whose selected column is 1 with value 7. -/
theorem C2_witness :
    Mw2.find_most_positive_in_bottom_row = some (1, 7) ∧
      (scannedRow Mw2).getD 1 0 = 7 ∧ (0 : ℚ) < 7 := by
  have hfind : Mw2.find_most_positive_in_bottom_row = some (1, 7) := by
    with_unfolding_all decide
  obtain ⟨-, hget, hpos, -, -⟩ := (C2_find_most_spec Mw2).2 1 7 hfind
  exact ⟨hfind, hget, hpos⟩

/-- C3: executing a pivot at `(pr, pc)` on a rectangular tableau with a
nonzero pivot entry divides the pivot row elementwise by the pivot value (so
the pivot entry becomes exactly 1), and, for every other row below the
phase's `num_rows` bound (all rows in phase one, all but the bottom row in
phase two), subtracts that row's pivot-column entry times the normalized
pivot row elementwise, so that every updated row has 0 in the pivot column;
in phase two the bottom row is left unchanged. -/
theorem C3_pivot_spec (m : Matrix) (pr pc : Nat)
    (hrect : ∀ r, r < m.data.length → m.rowLen r = (m.data.getD 0 []).length)
    (hpr : pr < m.activeRows)
    (hpc : pc < (m.data.getD 0 []).length)
    (hpv : m.get pr pc ≠ 0) :
    (∀ c, c < (m.data.getD 0 []).length →
      (m.pivot (pr, pc)).get pr c = m.get pr c / m.get pr pc) ∧
    (m.pivot (pr, pc)).get pr pc = 1 ∧
    (∀ r, r < m.activeRows → r ≠ pr → ∀ c, c < (m.data.getD 0 []).length →
      (m.pivot (pr, pc)).get r c = m.get r c - m.get r pc * (m.get pr c / m.get pr pc)) ∧
    (∀ r, r < m.activeRows → r ≠ pr → (m.pivot (pr, pc)).get r pc = 0) ∧
    (m.phase = Phase.two → ∀ c, (m.pivot (pr, pc)).get (m.data.length - 1) c =
      m.get (m.data.length - 1) c) := by
  have hnorm := normalizeRow_get pr (m.get pr pc) ((m.data.getD 0 []).length) m
  have hfr := normalizeRow_frame pr (m.get pr pc) ((m.data.getD 0 []).length) m
  have hrect1 : ∀ r, r < (normalizeRow pr (m.get pr pc) ((m.data.getD 0 []).length) m).data.length →
      (normalizeRow pr (m.get pr pc) ((m.data.getD 0 []).length) m).rowLen r =
        (m.data.getD 0 []).length := by
    intro r hr
    rw [frame_rowLen hfr]
    exact hrect r (by rw [← frame_data_length hfr]; exact hr)
  have helim := elimFold_get pr pc ((m.data.getD 0 []).length)
    (normalizeRow pr (m.get pr pc) ((m.data.getD 0 []).length) m) hpc hrect1
  have hstep : ∀ r c, c < (m.data.getD 0 []).length →
      (m.pivot (pr, pc)).get r c =
        (if r < m.activeRows ∧ r ≠ pr then
          (normalizeRow pr (m.get pr pc) ((m.data.getD 0 []).length) m).get r c -
            (normalizeRow pr (m.get pr pc) ((m.data.getD 0 []).length) m).get r pc *
              (normalizeRow pr (m.get pr pc) ((m.data.getD 0 []).length) m).get pr c
         else (normalizeRow pr (m.get pr pc) ((m.data.getD 0 []).length) m).get r c) := by
    intro r c hc
    rw [Matrix.pivot_eq]
    exact helim m.activeRows r c hc
  have hload : ∀ c, c < (m.data.getD 0 []).length →
      (normalizeRow pr (m.get pr pc) ((m.data.getD 0 []).length) m).get pr c =
        m.get pr c / m.get pr pc := by
    intro c hc
    rw [hnorm pr c, if_pos ⟨rfl, hc⟩]
  have hother : ∀ r c, r ≠ pr →
      (normalizeRow pr (m.get pr pc) ((m.data.getD 0 []).length) m).get r c =
        m.get r c := by
    intro r c hrne
    rw [hnorm r c, if_neg (fun hcon => hrne hcon.1)]
  refine ⟨?_, ?_, ?_, ?_, ?_⟩
  · intro c hc
    rw [hstep pr c hc, if_neg (fun hcon => hcon.2 rfl), hload c hc]
  · rw [hstep pr pc hpc, if_neg (fun hcon => hcon.2 rfl), hload pc hpc, div_self hpv]
  · intro r hr hrne c hc
    rw [hstep r c hc, if_pos ⟨hr, hrne⟩, hother r c hrne, hother r pc hrne, hload c hc]
  · intro r hr hrne
    rw [hstep r pc hpc, if_pos ⟨hr, hrne⟩, hother r pc hrne, hload pc hpc,
      div_self hpv, mul_one, sub_self]
  · intro hph c
    have h0 : m.activeRows = m.data.length - 1 := by
      unfold Matrix.activeRows
      rw [hph]
    have hpr2 : pr < m.data.length - 1 := by
      rw [h0] at hpr
      exact hpr
    have hlast_ne : m.data.length - 1 ≠ pr := by omega
    rcases Nat.lt_or_ge c ((m.data.getD 0 []).length) with hc | hc
    · have hnotc : ¬(m.data.length - 1 < m.activeRows ∧ m.data.length - 1 ≠ pr) := by
        intro hcon
        rw [h0] at hcon
        omega
      rw [hstep _ c hc, if_neg hnotc, hother _ c hlast_ne]
    · have hframe := Matrix.pivot_frame m (pr, pc)
      rcases Nat.lt_or_ge (m.data.length - 1) m.data.length with hrow | hrow
      · have h1 : m.rowLen (m.data.length - 1) ≤ c := by
          rw [hrect _ hrow]
          exact hc
        rw [(m.pivot (pr, pc)).get_oob _ c (Or.inr (by rw [frame_rowLen hframe]; exact h1)),
          m.get_oob _ c (Or.inr h1)]
      · rw [(m.pivot (pr, pc)).get_oob _ c (Or.inl (by rw [frame_data_length hframe]; omega)),
          m.get_oob _ c (Or.inl (by omega))]

/-- C3 (witness): a concrete pivot at `(0, 0)` on `M3w`: the pivot entry
becomes 1 and the other row's pivot-column entry becomes 0. -/
theorem C3_witness :
    (M3w.pivot (0, 0)).get 0 0 = 1 ∧ (M3w.pivot (0, 0)).get 1 0 = 0 := by
  have h := C3_pivot_spec M3w 0 0 (by with_unfolding_all decide)
    (by with_unfolding_all decide) (by with_unfolding_all decide)
    (by with_unfolding_all decide)
  exact ⟨h.2.1, h.2.2.2.1 1 (by with_unfolding_all decide) (by decide)⟩

/-- C4: `solve` runs the pivot loop with an iteration budget of one million;
with fuel left and no pivot found, phase two always accepts, and phase one
accepts exactly when the absolute value of the bottom row's final entry (the
intermediate objective's RHS) is below `1/10000`, otherwise failing with the
infeasibility error; an exhausted budget yields the distinct
excessive-iterations error. -/
theorem C4_solve_spec :
    (∀ m : Matrix, m.solve = solveFuel 1000000 m) ∧
    (∀ m : Matrix, solveFuel 0 m =
      Except.error "No solution found, iterated too many times") ∧
    (∀ (n : Nat) (m : Matrix) (p : Nat × Nat), m.find_pivot = some p →
      solveFuel (n + 1) m = solveFuel n (m.pivot p)) ∧
    (∀ (n : Nat) (m : Matrix), m.find_pivot = none → m.phase = Phase.two →
      solveFuel (n + 1) m = Except.ok m) ∧
    (∀ (n : Nat) (m : Matrix) (lr : List ℚ) (x : ℚ), m.find_pivot = none →
      m.phase = Phase.one → m.data.getLast? = some lr → lr.getLast? = some x →
      ((|x| < 1 / 10000 → solveFuel (n + 1) m = Except.ok m) ∧
       (¬|x| < 1 / 10000 →
         solveFuel (n + 1) m = Except.error "No feasible solution found"))) := by
  refine ⟨fun m => rfl, fun m => rfl, fun n m p h => solveFuel_succ_some n m p h, ?_, ?_⟩
  · intro n m hp hph
    have hc : m.check_if_we_have_a_solution = true := by
      unfold Matrix.check_if_we_have_a_solution
      rw [hph]
    rw [solveFuel_succ_none n m hp, if_pos hc]
  · intro n m lr x hp hph hlast hx
    have hc : m.check_if_we_have_a_solution = decide (|x| < 1 / 10000) := by
      unfold Matrix.check_if_we_have_a_solution
      rw [hph, hlast]
      show (match lr.getLast? with
        | some last => decide (|last| < 1 / 10000)
        | none => false) = _
      rw [hx]
    constructor
    · intro htol
      rw [solveFuel_succ_none n m hp, if_pos (by rw [hc]; exact decide_eq_true htol)]
    · intro htol
      rw [solveFuel_succ_none n m hp, if_neg (by rw [hc]; simpa using htol)]

/-- C4 (witness): on `Mw4` (phase one, RHS 1) a fueled step fails with the
infeasibility error, and on `Mw4b` (phase two) it accepts. -/
theorem C4_witness :
    solveFuel 1 Mw4 = Except.error "No feasible solution found" ∧
    solveFuel 1 Mw4b = Except.ok Mw4b := by
  constructor
  · exact (C4_solve_spec.2.2.2.2 0 Mw4 [1] 1 (by with_unfolding_all decide) rfl
      (by decide) (by decide)).2 (by with_unfolding_all decide)
  · exact C4_solve_spec.2.2.2.1 0 Mw4b (by with_unfolding_all decide) rfl

/-- C5 (code bug): the variable count classifies intervals with
`power ≤ max_consumption` as under-load, but every row-generating loop skips
intervals with `power ≥ max_consumption`.  On `dataC5` (powers `[0, 2]`,
cap 2) two decision variables are counted, yet the capacity-upper-bound loop
emits only one row; the builder then overruns its artificial-column budget
and panics (modelled as `none`). -/
theorem C5_boundary_bug :
    (dataC5.filter (fun d => d.power ≤ configC5.max_consumption)).length = 2 ∧
    maxPowerRows configC5 9 2 dataC5 0 0 0 =
      some ([[1, 0, 1, 0, 0, 0, 0, 0, 1]], 1) ∧
    build_tableau dataC5 configC5 = none := by
  refine ⟨by with_unfolding_all decide, ?_, ?_⟩ <;> with_unfolding_all decide

/-- C6 (counterexample): on `M6` column 0 has the single nonzero entry `2`,
which is not a unit entry, yet `get_solution` reports that row's RHS `5`
rather than the `0` the claim requires. -/
theorem C6_counterexample :
    M6.get 0 0 = 2 ∧ M6.get 0 0 ≠ 1 ∧ M6.get 1 0 = 0 ∧
    M6.get_solution = [5] ∧ (5 : ℚ) ≠ 0 := by
  refine ⟨?_, ?_, ?_, ?_, ?_⟩ <;> with_unfolding_all decide

/-- C6 (witness): the amended description instantiated on `M6w`, whose
column 0 has the single nonzero entry in row 0, so the reported value is
that row's RHS. -/
theorem C6_witness :
    M6w.get_solution.getD 0 0 = M6w.get 0 ((M6w.data.getD 0 []).length - 1) :=
  (C6_get_solution_spec M6w 0 (by decide)).1 0 (by with_unfolding_all decide)

/-- C7: the four-interval scenario (powers `[0, 3, 1, 3]`, prices
`[1, 2, 2, 0.9]`, cap 2, capacity 0.5, max charge 1.5, initial charge 0.375,
efficiency 0.9, final charge 0) builds, solves both phases and yields
decision variables within `1/10000` of `[0.5556, 0]`. -/
theorem C7_scenario :
    ∃ t m1 m3, build_tableau dataC7 configC7 = some (t, 2, 2) ∧
      (Matrix.new t 2 2).solve = Except.ok m1 ∧
      m1.phase_two.solve = Except.ok m3 ∧
      |m3.get_solution.getD 0 0 - 1389/2500| ≤ 1/10000 ∧
      |m3.get_solution.getD 1 0 - 0| ≤ 1/10000 := by
  have hp : pipeC7 40 = true := by with_unfolding_all decide
  unfold pipeC7 at hp
  split at hp
  · rename_i t v a hb
    split at hp
    · rename_i m1 h1
      split at hp
      · rename_i m3 h2
        obtain ⟨hv, ha, hx0, hx1⟩ := of_decide_eq_true hp
        subst hv
        subst ha
        exact ⟨t, m1, m3, hb, Matrix.solve_of_fuel 40 (by omega) _ m1 h1,
          Matrix.solve_of_fuel 40 (by omega) _ m3 h2, hx0, hx1⟩
      · exact absurd hp (by simp)
    · exact absurd hp (by simp)
  · exact absurd hp (by simp)

/-- C8 (counterexample): the successful calculation on `dataC8` produces a
plan whose two energy fields are both zero, so "exactly one of the two
fields is nonzero" is false as stated. -/
theorem C8_counterexample :
    calculation dataC8 configC8 = some (Except.ok [planC8]) ∧
    planC8.energy_to_battery_wh = 0 ∧ planC8.energy_from_battery_wh = 0 := by
  refine ⟨?_, rfl, rfl⟩
  apply calculationF_ok_mono 10 (by omega)
  with_unfolding_all decide

/-- C8 (amended): for every Plan record produced by a successful
calculation, at most one of the two fields `energy_to_battery_wh` and
`energy_from_battery_wh` is nonzero: the other is zero by construction. -/
theorem C8_at_most_one_nonzero (data : List Data) (config : Config)
    (plans : List Plan) (h : calculation data config = some (Except.ok plans)) :
    ∀ p ∈ plans, p.energy_to_battery_wh = 0 ∨ p.energy_from_battery_wh = 0 := by
  obtain ⟨t, v, a, m1, m2, -, -, -, h3⟩ := calculationF_ok_inv 1000000 data config plans h
  intro p hp
  rw [h3] at hp
  exact makePlans_zero_field config data m2.get_solution 0 p hp

/-- C8 (witness): the amended description instantiated on the plan produced
for `dataC8`. -/
theorem C8_witness :
    planC8.energy_to_battery_wh = 0 ∨ planC8.energy_from_battery_wh = 0 := by
  have hcalc : calculation dataC8 configC8 = some (Except.ok [planC8]) := by
    apply calculationF_ok_mono 10 (by omega)
    with_unfolding_all decide
  exact C8_at_most_one_nonzero dataC8 configC8 [planC8] hcalc planC8 (by simp)

/-- C9: the solver operations leave the tableau's row count, every row's
length and the stored variable/artificial counts unchanged; `pivot` and the
solve loop also leave the phase unchanged, a fresh matrix starts in phase
one, and only `phase_two` changes the phase. -/
theorem C9_frame_spec :
    (∀ (d : List (List ℚ)) (v a : Nat), (Matrix.new d v a).phase = Phase.one ∧
      (Matrix.new d v a).data = d ∧ (Matrix.new d v a).«variables» = v ∧
      (Matrix.new d v a).artificials = a) ∧
    (∀ m : Matrix, m.phase_two.data = m.data ∧
      m.phase_two.«variables» = m.«variables» ∧
      m.phase_two.artificials = m.artificials ∧ m.phase_two.phase = Phase.two) ∧
    (∀ (m : Matrix) (p : Nat × Nat), (m.pivot p).data.length = m.data.length ∧
      (m.pivot p).data.map List.length = m.data.map List.length ∧
      (m.pivot p).«variables» = m.«variables» ∧
      (m.pivot p).artificials = m.artificials ∧ (m.pivot p).phase = m.phase) ∧
    (∀ (n : Nat) (m m' : Matrix), solveFuel n m = Except.ok m' →
      m'.data.length = m.data.length ∧ m'.data.map List.length = m.data.map List.length ∧
      m'.«variables» = m.«variables» ∧ m'.artificials = m.artificials ∧
      m'.phase = m.phase) := by
  refine ⟨fun d v a => ⟨rfl, rfl, rfl, rfl⟩, fun m => ⟨rfl, rfl, rfl, rfl⟩, ?_, ?_⟩
  · intro m p
    have hf := Matrix.pivot_frame m p
    exact ⟨frame_data_length hf, frame_shape hf, frame_variables hf,
      frame_artificials hf, frame_phase hf⟩
  · intro n m m' h
    have hf := solveFuel_frame n m m' h
    exact ⟨frame_data_length hf, frame_shape hf, frame_variables hf,
      frame_artificials hf, frame_phase hf⟩

/-- C9 (witness): the frame description instantiated on a two-step solve of
`M9w`, which succeeds with `M9fin`: shapes and phase agree. -/
theorem C9_witness :
    M9fin.data.map List.length = M9w.data.map List.length ∧
      M9fin.phase = M9w.phase := by
  have h := C9_frame_spec.2.2.2 2 M9w M9fin (by with_unfolding_all decide)
  exact ⟨h.2.1, h.2.2.2.2⟩

/-- C10 (counterexample): on `dataC10` with `configC10` (initial charge
above the battery capacity) the builder uses more artificial columns than
the `count_over + 1` it budgeted for, and the trim loop indexes out of
bounds — a Rust panic, modelled as `none`.  So `build_tableau` does not
return a rectangular matrix for every input. -/
theorem C10_counterexample : build_tableau dataC10 configC10 = none := by
  with_unfolding_all decide

/-- C10 (witness): the amended description instantiated on a successful
build from `dataC10` with the well-behaved `configC10w`: the first row of
the result has width `v + (2v + (n - v) + 1) + a + 1 = 6`. -/
theorem C10_witness :
    ([1, 1, 0, 0, 0, 1] : List ℚ).length =
      1 + (2 * 1 + (dataC10.length - 1) + 1) + 1 + 1 := by
  exact (C10_build_tableau_shape dataC10 configC10w TC10w 1 1
    (by with_unfolding_all decide)).2 [1, 1, 0, 0, 0, 1] (by simp [TC10w])

end BatterySim
